import Mathlib

/-!
# Verification development for `xlsx-reader.js`

A shallow embedding of the Node-RED node defined in `src/xlsx-reader.js`
(path resolution, file listing, per-sheet normalisation, aggregation and the
output writer) together with theorems about it.

Modelling conventions.

* JavaScript values are the inductive type `JVal`.  An object is its kind
  (plain object, array, date) together with its own enumerable properties in
  insertion order; an array is the object whose keys are its indices.
* In the aggregator (`resultMap`) and in the output writer (`setDeep`) the
  bracket assignments and reads follow the language for the two keys that are
  not ordinary own properties: `__proto__`, which is served by the accessor
  inherited from `Object.prototype` (a read yields the prototype, an
  assignment replaces the prototype and creates no own property), and the
  `length` of an array.  What happens inside the shared built-in prototype
  objects once a walk has entered them is behaviour of the runtime and is a
  parameter in `Env`.  The cells of a row are read and written as own
  properties.  Objects with accessors of their own, frozen objects and values
  shared between two places are outside the model.
* In-place mutation is rendered by explicit state passing: a function that
  mutates its argument returns the mutated value.
* The host runtime (Node-RED), the file system, `path` and the `xlsx` library
  are parameters collected in `Env`.
-/

namespace XlsxReader

/-! ## JavaScript values -/

/-- Kind of a JavaScript object: a plain object, an array or a `Date`. -/
inductive ObjKind where
  | plain
  | array
  | date (t : Int)
  deriving DecidableEq, Repr

/-- JavaScript values: the primitives that occur in cells and stores, and
objects carrying their own properties in insertion order. -/
inductive JVal where
  | undefined
  | null
  | bool (b : Bool)
  | num (n : Int)
  | str (s : String)
  | obj (kind : ObjKind) (props : List (String × JVal))
  deriving Repr

/-- Own properties of an object, in insertion order. -/
abbrev Props := List (String × JVal)

/-- Row record produced by `sheet_to_json`: a plain object keyed by header. -/
abbrev Row := Props

/-- The fresh empty object literal `{}`. -/
def emptyObject : JVal := .obj .plain []

/-- The test `typeof v === "object" && v !== null`. -/
def isObject : JVal → Bool
  | .obj _ _ => true
  | _ => false

/-- Own properties of a value; a value that is not an object has none. -/
def propsOf : JVal → Props
  | .obj _ ps => ps
  | _ => []

/-- Kind of an object value (plain for anything else). -/
def kindOf : JVal → ObjKind
  | .obj k _ => k
  | _ => .plain

/-- Property read `o[k]` on the own properties: `undefined` when absent. -/
def getOwn (k : String) : Props → JVal
  | [] => .undefined
  | (k', v) :: ps => if k' = k then v else getOwn k ps

/-- Property write `o[k] = v`: overwrite in place, or append a new key. -/
def setOwn (k : String) (v : JVal) : Props → Props
  | [] => [(k, v)]
  | (k', v') :: ps => if k' = k then (k, v) :: ps else (k', v') :: setOwn k v ps

/-- Property removal `delete o[k]`. -/
def deleteOwn (k : String) (ps : Props) : Props :=
  ps.filter (fun p => decide (p.1 ≠ k))

/-- The keys `Object.keys(o)`. -/
def keysOf (ps : Props) : List String := ps.map Prod.fst

/-- Property read `v[k]` on a value: the own property of an object. -/
def getProp (v : JVal) (k : String) : JVal := getOwn k (propsOf v)

/-- Read along a path of keys, `v[k1][k2]...`. -/
def getPath (v : JVal) : List String → JVal
  | [] => v
  | k :: ks => getPath (getProp v k) ks

/-! ## Strings -/

/-- White space and line terminators removed by `String.prototype.trim`. -/
def isJsWhiteSpace (c : Char) : Bool :=
  decide (c.toNat ∈ [0x09, 0x0A, 0x0B, 0x0C, 0x0D, 0x20, 0xA0, 0x1680, 0x2028, 0x2029,
    0x202F, 0x205F, 0x3000, 0xFEFF]) || (decide (0x2000 ≤ c.toNat) && decide (c.toNat ≤ 0x200A))

/-- The method `s.trim()`. -/
def trim (s : String) : String :=
  String.mk ((s.data.dropWhile isJsWhiteSpace).reverse.dropWhile isJsWhiteSpace).reverse

/-- The method `s.startsWith(p)`. -/
def startsWith (s p : String) : Bool := p.data.isPrefixOf s.data

/-- The method `s.endsWith(p)`. -/
def endsWith (s p : String) : Bool := p.data.isSuffixOf s.data

/-- The method `s.toLowerCase()`, on the ASCII letters; other characters are
left as they are (none of them lowers to a character of `".xlsx"`). -/
def toLowerCase (s : String) : String := String.mk (s.data.map Char.toLower)

/-- Pieces of a character list between occurrences of `sep`. -/
def splitChars (sep : Char) : List Char → List (List Char)
  | [] => [[]]
  | c :: cs =>
    if c = sep then [] :: splitChars sep cs
    else
      match splitChars sep cs with
      | [] => [[c]]
      | p :: ps => (c :: p) :: ps

/-- The method `s.split(sep)` for a one-character separator. -/
def split (s : String) (sep : Char) : List String :=
  (splitChars sep s.data).map String.mk

/-- The filter `.filter(Boolean)` on strings: drops the empty ones. -/
def filterBoolean (xs : List String) : List String :=
  xs.filter (fun s => decide (s ≠ ""))

/-! ## Sheet normalisation (`isEmpty`, `fillForward`, placeholder removal) -/

/-- Source `isEmpty(v)`:
`v === null || v === undefined || (typeof v === "string" && v.trim() === "")`. -/
def isEmpty : JVal → Bool
  | .null => true
  | .undefined => true
  | .str s => decide (trim s = "")
  | _ => false

/-- Inner loop of `fillForward` for one column: `last` is the tracker, the
rows are visited in order, an empty cell is overwritten when the tracker is
not empty, a non-empty cell becomes the tracker. -/
def fillColumn (col : String) : JVal → List Row → List Row
  | _, [] => []
  | last, r :: rs =>
    if isEmpty (getOwn col r) then
      if !isEmpty last then setOwn col last r :: fillColumn col last rs
      else r :: fillColumn col last rs
    else r :: fillColumn col (getOwn col r) rs

/-- Source `fillForward(rows, columns)`, returning the mutated `rows`. -/
def fillForward (rows : List Row) (columns : List String) : List Row :=
  if rows.isEmpty then rows
  else columns.foldl (fun rs col => fillColumn col .undefined rs) rows

/-- Body of the placeholder removal callback: for each key of the row taken
from `Object.keys(row)`, delete it when it starts with `"__EMPTY"`. -/
def removePlaceholders (row : Row) : Row :=
  (keysOf row).foldl
    (fun r key => if startsWith key "__EMPTY" then deleteOwn key r else r) row

/-- Per-sheet normalisation of the input handler (lines 79-94): placeholder
removal on every row, then the optional forward fill. -/
def normalize (fillMerged : Bool) (mergedColumns : List String) (data : List Row) :
    List Row :=
  let data := data.map removePlaceholders
  if fillMerged && !mergedColumns.isEmpty then fillForward data mergedColumns else data

/-! ## Configuration, node and host environment -/

/-- The operator `s || d` on strings: `d` when `s` is the empty string. -/
def orElse (s d : String) : String := if s = "" then d else s

/-- The operator `x || d` on a configuration field that may be missing. -/
def orDefault (x : Option String) (d : String) : String :=
  match x with
  | some s => orElse s d
  | none => d

/-- Configuration object handed to the constructor by the host; `none` is a
field that was not provided, the two flags are given by their truthiness. -/
structure Config where
  path : Option String
  pathType : Option String
  mode : Option String
  excludeRegex : Option String
  includeHidden : Bool
  outputTargetType : Option String
  outputTargetPath : Option String
  fillMerged : Bool
  mergedColumns : Option String

/-- Fields the constructor stores on the node (lines 11-21). -/
structure Node where
  path : Option String
  pathType : String
  mode : String
  excludeRegex : String
  includeHidden : Bool
  outputTargetType : String
  outputTargetPath : String
  fillMerged : Bool
  mergedColumnsRaw : String

/-- Source `XLSXReaderNode(config)`: the configuration with its defaults. -/
def XLSXReaderNode (config : Config) : Node where
  path := config.path
  pathType := orDefault config.pathType "str"
  mode := orDefault config.mode "file"
  excludeRegex := orDefault config.excludeRegex ""
  includeHidden := config.includeHidden
  outputTargetType := orDefault config.outputTargetType "msg"
  outputTargetPath := orDefault config.outputTargetPath "data"
  fillMerged := config.fillMerged
  mergedColumnsRaw := orDefault config.mergedColumns ""

/-- Error carried by a thrown exception: its message. -/
abbrev Err := String

/-- Context stores reachable through `node.context()`.  A store that exposes
`get` and `set` is the key-value map of its entries (`get` is `getOwn`, `set`
is `setOwn`); `none` is a store without that capability.  A change made in
place to a value the store has handed out reaches the store with the `set`
that follows it. -/
structure Context where
  flow : Option Props
  global : Option Props

/-- The lookup `node.context()[scope]` followed by the capability probe. -/
def Context.scope (c : Context) (scope : String) : Option Props :=
  if scope = "flow" then c.flow else if scope = "global" then c.global else none

/-- Context after the store of `scope` has become `store`. -/
def Context.withScope (c : Context) (scope : String) (store : Props) : Context :=
  if scope = "flow" then { c with flow := some store }
  else if scope = "global" then { c with global := some store }
  else c

/-- Entry of `workbook.Workbook.Sheets`: sheet name and visibility
(`0` visible, `1` hidden, `2` very hidden). -/
structure SheetEntry where
  name : String
  Hidden : Nat

/-- Workbook returned by `XLSX.readFile`.  `rowsOf name` is what
`XLSX.utils.sheet_to_json(workbook.Sheets[name], { defval: null, blankrows: false })`
returns; `sheetEntries` is `workbook.Workbook.Sheets` when `workbook.Workbook`
exists and that field is an array. -/
structure Workbook where
  SheetNames : List String
  rowsOf : String → List Row
  sheetEntries : Option (List SheetEntry)

/-- External collaborators of the node: the host property resolver
(`none` stands for a resolved value `null` or `undefined`), the file system
(`statIsFile p` is `fs.statSync(p).isFile()`), `path.join`, `XLSX.readFile`,
the regular expression engine (`regExp src` is `new RegExp(src)` with its
`test`) and the host message writer.  A thrown exception is `.error`.

The last three fields are the JavaScript runtime where `setDeep` leaves the
own properties of the stored value.  `inheritsObject kind k` tells whether an
object of that kind without an own property `k` reads an object at `k`
through its built-in prototype (in a runtime whose built-in prototypes have
not been extended this is `false` for every key; the key `__proto__` is
treated by `setDeep` itself).  `prototypeWalk kind path val` is the rest of
the walk of `setDeep`, from the key that left the own properties onwards,
carried out inside the built-in prototype of an object of that kind: it
completes or throws.  `stringToArrayLength` is the conversion of a value that
is a string, an array or a date when it is assigned to the `length` of an
array: the new length, or the error thrown. -/
structure Env where
  evaluateNodeProperty : Option String → String → JVal → Context → Except Err (Option String)
  readdirSync : String → Except Err (List String)
  statIsFile : String → Except Err Bool
  join : String → String → String
  readFile : String → Except Err Workbook
  regExp : String → Except Err (String → Bool)
  setMessageProperty : JVal → String → JVal → Except Err JVal
  inheritsObject : ObjKind → String → Bool
  prototypeWalk : ObjKind → List String → JVal → Except Err Unit
  stringToArrayLength : JVal → Except Err Nat

/-- File-system accesses of one invocation. -/
inductive IOEvent where
  | readdir (path : String)
  | stat (path : String)
  | readFile (path : String)
  deriving DecidableEq, Repr

/-! ## Typed object maps used by the aggregator -/

/-- Write of the own property `k` on a list of own properties: overwrite in
place, or append a new key.  This is the assignment `o[k] = v` for every key
other than `__proto__` (see `Obj.assign`). -/
def setKey {α : Type} (k : String) (v : α) : List (String × α) → List (String × α)
  | [] => [(k, v)]
  | (k', v') :: m => if k' = k then (k, v) :: m else (k', v') :: setKey k v m

/-- Read of the own property `k`. -/
def getKey? {α : Type} (k : String) : List (String × α) → Option α
  | [] => none
  | (k', v) :: m => if k' = k then some v else getKey? k m

/-- Keys of a list of own properties (`Object.keys`). -/
def keys {α : Type} (m : List (String × α)) : List String := m.map Prod.fst

/-- A plain object the node creates with `{}` and fills by bracket
assignment of object values of type `α`: its own properties in insertion
order and its prototype.  `proto = none` is the built-in `Object.prototype`;
`proto = some v` is a prototype replaced by the object `v`. -/
structure Obj (α : Type) where
  own : List (String × α)
  proto : Option α

/-- The object literal `{}`. -/
def Obj.empty {α : Type} : Obj α := { own := [], proto := none }

/-- The assignment `o[k] = v` of an object value `v` (an object or an array).
For the key `__proto__` the setter inherited from `Object.prototype` runs: it
replaces the prototype of `o` by `v` and creates no own property.  Any other
key becomes, or overwrites, an own property. -/
def Obj.assign {α : Type} (k : String) (v : α) (o : Obj α) : Obj α :=
  if k = "__proto__" then { o with proto := some v }
  else { o with own := setKey k v o.own }

/-- Object `{ [sheet]: rows[] }` kept per file. -/
abbrev SheetMap := Obj (List Row)

/-- Object `{ [filename]: { [sheet]: rows[] } }`. -/
abbrev ResultMap := Obj SheetMap

/-! ## File listing (lines 31-44) -/

/-- The callback `f => { try { return fs.statSync(f).isFile(); } catch { return false; } }`. -/
def isRegularFile (env : Env) (f : String) : Bool :=
  match env.statIsFile f with
  | .ok b => b
  | .error _ => false

/-- The test `f.toLowerCase().endsWith(".xlsx")`. -/
def hasXlsxExtension (f : String) : Bool := endsWith (toLowerCase f) ".xlsx"

/-- The file listing of the input handler, with the file-system accesses it
makes: in directory mode the filtered directory entries, else the path. -/
def listFiles (env : Env) (node : Node) (filePath : String) :
    Except Err (List String) × List IOEvent :=
  if node.mode = "directory" then
    match env.readdirSync filePath with
    | .error e => (.error e, [.readdir filePath])
    | .ok entries =>
      let candidates := (entries.filter hasXlsxExtension).map (fun f => env.join filePath f)
      (.ok (candidates.filter (isRegularFile env)),
        .readdir filePath :: candidates.map IOEvent.stat)
  else (.ok [filePath], [])

/-! ## Aggregation (lines 46-112) -/

/-- Aggregator state: `resultMap` and the three counters. -/
structure Acc where
  resultMap : ResultMap
  fileCount : Nat
  sheetCount : Nat
  rowCount : Nat

/-- The flag `isHidden` of the sheet loop (lines 67-69). -/
def isHidden (wb : Workbook) (sheetName : String) : Bool :=
  match wb.sheetEntries with
  | some entries =>
    (entries.find? (fun s => decide (s.name = sheetName) && decide (s.Hidden ≠ 0))).isSome
  | none => false

/-- The test `exclude && exclude.test(sheetName)`. -/
def excluded (exclude : Option (String → Bool)) (sheetName : String) : Bool :=
  match exclude with
  | some re => re sheetName
  | none => false

/-- The list `mergedColumns` (lines 51-54). -/
def parseMergedColumns (raw : String) : List String :=
  filterBoolean ((split raw ',').map trim)

/-- State of the sheet loop of one file: the object created by
`resultMap[f] = {}` (line 60), which `resultMap[f]` denotes throughout the
loop and which the loop fills in place, and the two counters the loop
updates. -/
structure SheetAcc where
  sheets : SheetMap
  sheetCount : Nat
  rowCount : Nat

/-- One iteration of the sheet loop (lines 63-99): the two `continue` tests,
then `resultMap[f][sheetName] = data; sheetCount++; rowCount += data.length`. -/
def sheetStep (node : Node) (exclude : Option (String → Bool)) (mergedColumns : List String)
    (wb : Workbook) (st : SheetAcc) (sheetName : String) : SheetAcc :=
  if !node.includeHidden && isHidden wb sheetName then st
  else if excluded exclude sheetName then st
  else
    let data := normalize node.fillMerged mergedColumns (wb.rowsOf sheetName)
    { sheets := st.sheets.assign sheetName data
      sheetCount := st.sheetCount + 1
      rowCount := st.rowCount + data.length }

/-- The body of the file loop once the workbook has been read (lines 59-99):
`resultMap[f] = {}`, `fileCount++` and the sheet loop.  The object assigned at
`f` is the one the sheet loop has filled. -/
def fileStep (node : Node) (exclude : Option (String → Bool)) (mergedColumns : List String)
    (acc : Acc) (f : String) (wb : Workbook) : Acc :=
  let st := wb.SheetNames.foldl (sheetStep node exclude mergedColumns wb)
    { sheets := Obj.empty, sheetCount := acc.sheetCount, rowCount := acc.rowCount }
  { resultMap := acc.resultMap.assign f st.sheets
    fileCount := acc.fileCount + 1
    sheetCount := st.sheetCount
    rowCount := st.rowCount }

/-- The file loop (lines 57-100): the final state, or the error thrown by the
first `XLSX.readFile` that fails, together with the files whose read was
attempted, in order. -/
def readAll (env : Env) (node : Node) (exclude : Option (String → Bool))
    (mergedColumns : List String) : List String → Acc → Except Err Acc × List String
  | [], acc => (.ok acc, [])
  | f :: fs, acc =>
    match env.readFile f with
    | .error e => (.error e, [f])
    | .ok wb =>
      let r := readAll env node exclude mergedColumns fs
        (fileStep node exclude mergedColumns acc f wb)
      (r.1, f :: r.2)

/-- The record `summary` of the aggregated payload. -/
structure Summary where
  fileCount : Nat
  sheetCount : Nat
  rowCount : Nat
  deriving DecidableEq, Repr

/-- The record `options` of the aggregated payload. -/
structure Options where
  excludeRegex : Option String
  includeHidden : Bool
  fillMerged : Bool
  mergedColumns : List String

/-- The object `aggregated` (lines 103-112). -/
structure Aggregated where
  data : ResultMap
  summary : Summary
  options : Options

/-- The aggregated payload built from the final loop state. -/
def buildAggregated (node : Node) (mergedColumns : List String) (acc : Acc) : Aggregated where
  data := acc.resultMap
  summary := { fileCount := acc.fileCount, sheetCount := acc.sheetCount, rowCount := acc.rowCount }
  options :=
    { excludeRegex := if node.excludeRegex = "" then none else some node.excludeRegex
      includeHidden := node.includeHidden
      fillMerged := node.fillMerged
      mergedColumns := mergedColumns }

/-- Lines 46-112 as one function: the aggregated payload of the files, or the
error of the first failing read, with the files whose read was attempted. -/
def aggregate (env : Env) (node : Node) (exclude : Option (String → Bool))
    (mergedColumns : List String) (files : List String) :
    Except Err Aggregated × List String :=
  let r := readAll env node exclude mergedColumns files
    { resultMap := Obj.empty, fileCount := 0, sheetCount := 0, rowCount := 0 }
  (r.1.map (buildAggregated node mergedColumns), r.2)

/-- A JavaScript array of the given elements. -/
def arrayOf (xs : List JVal) : JVal :=
  .obj .array (xs.enum.map (fun p => (toString p.1, p.2)))

/-- The aggregated payload as a JavaScript value, by its own properties. -/
def Aggregated.toJVal (a : Aggregated) : JVal :=
  .obj .plain
    [ ("data", .obj .plain (a.data.own.map (fun fs =>
        (fs.1, .obj .plain (fs.2.own.map (fun sr =>
          (sr.1, arrayOf (sr.2.map (fun r => .obj .plain r))))))))),
      ("summary", .obj .plain
        [ ("fileCount", .num a.summary.fileCount),
          ("sheetCount", .num a.summary.sheetCount),
          ("rowCount", .num a.summary.rowCount) ]),
      ("options", .obj .plain
        [ ("excludeRegex", match a.options.excludeRegex with
            | some s => .str s
            | none => .null),
          ("includeHidden", .bool a.options.includeHidden),
          ("fillMerged", .bool a.options.fillMerged),
          ("mergedColumns", arrayOf (a.options.mergedColumns.map JVal.str)) ]) ]

/-! ## Output writer (`setOutput`, `setDeep`) -/

/-- Whether `k` is an own property. -/
def hasOwn (k : String) (ps : Props) : Bool := decide (k ∈ keysOf ps)

/-- The array index a property key denotes, if it is one: the decimal
numeral, in canonical form, of a number below `2^32 - 1`. -/
def arrayIndex? (k : String) : Option Nat :=
  match k.toNat? with
  | some i => if toString i = k ∧ i < 4294967295 then some i else none
  | none => none

/-- Own properties of an array once its `length` has been set to `n`: the
elements at index `n` and beyond are deleted. -/
def truncateArray (n : Nat) (ps : Props) : Props :=
  ps.filter (fun p =>
    match arrayIndex? p.1 with
    | some i => decide (i < n)
    | none => true)

/-- The length an assignment `array.length = v` sets, or the error it throws:
`ToNumber(v)` has to be an integer in `[0, 2^32)`.  `undefined` converts to
`NaN`; a plain object converts through `toString` to `NaN`, or cannot be
converted at all when it has an own `toString` property, which is no
function; strings, arrays and dates are left to the runtime. -/
def toArrayLength (env : Env) : JVal → Except Err Nat
  | .undefined => .error "Invalid array length"
  | .null => .ok 0
  | .bool b => .ok (if b then 1 else 0)
  | .num n =>
    if 0 ≤ n ∧ n < 4294967296 then .ok n.toNat else .error "Invalid array length"
  | .obj .plain ps =>
    if hasOwn "toString" ps then .error "Cannot convert object to primitive value"
    else .error "Invalid array length"
  | v => env.stringToArrayLength v

/-- The last statement of `setDeep`, `cur[k] = val`, on an object of the given
kind with the given own properties.  On an array the key `length` sets the
length, which throws unless the value is a valid length.  The key `__proto__`,
when the object has no own property of that name, runs the inherited setter:
the prototype is replaced (by an object or `null`) or the assignment is
ignored, and no own property is created.  Any other key becomes, or
overwrites, an own property. -/
def assignLast (env : Env) (kind : ObjKind) (obj : Props) (k : String) (val : JVal) :
    Except Err Props :=
  if kind = .array ∧ k = "length" then (toArrayLength env val).map (fun n => truncateArray n obj)
  else if k = "__proto__" ∧ hasOwn k obj = false then .ok obj
  else .ok (setOwn k val obj)

/-- Source `setDeep(obj, pathArr, val)` on an object of the given kind with
the given own properties: the own properties afterwards, or the error thrown.
The loop is rendered by recursion on the path.  At an intermediate key `k`:

* on an array, `k = "length"` reads a number, so `cur[k] = {}` is attempted
  and throws `RangeError`;
* when `cur` has no own property `k` and `cur[k]` is an object all the same,
  which is so for `k = "__proto__"` (the prototype) and for a key at which
  the built-in prototype holds an object, the walk continues inside that
  shared object: the own properties of `cur` stay as they are and the rest is
  `Env.prototypeWalk`;
* otherwise `cur[k]` is the own property, replaced by `{}` when it is not an
  object, and the walk descends into it.

For an empty `pathArr` the key read at index `-1` is `undefined`, which as a
property key is `"undefined"`. -/
def setDeep (env : Env) : ObjKind → Props → List String → JVal → Except Err Props
  | kind, obj, [], val => assignLast env kind obj "undefined" val
  | kind, obj, [k], val => assignLast env kind obj k val
  | kind, obj, k :: k2 :: rest, val =>
    if kind = .array ∧ k = "length" then .error "Invalid array length"
    else if hasOwn k obj = false ∧ (k = "__proto__" ∨ env.inheritsObject kind k = true) then
      (env.prototypeWalk kind (k :: k2 :: rest) val).map (fun _ => obj)
    else
      let child := if isObject (getOwn k obj) then getOwn k obj else emptyObject
      (setDeep env (kindOf child) (propsOf child) (k2 :: rest) val).map
        (fun ps => setOwn k (.obj (kindOf child) ps) obj)

/-- Source `setOutput(RED, node, msg, value)`: the message and the context
after the write, or the error thrown (by the host message writer or inside
`setDeep`).  The store hands out the stored value and takes the new one with
`set`; when `setDeep` throws, `set` is not reached and the store is as
before. -/
def setOutput (env : Env) (node : Node) (msg : JVal) (ctx : Context) (value : JVal) :
    Except Err (JVal × Context) :=
  let scope := orElse node.outputTargetType "msg"
  let pathStr := orElse node.outputTargetPath "data"
  if scope = "msg" then
    (env.setMessageProperty msg pathStr value).map (fun m => (m, ctx))
  else
    match ctx.scope scope with
    | none => (env.setMessageProperty msg pathStr value).map (fun m => (m, ctx))
    | some store =>
      if pathStr = "" || trim pathStr = "" then
        .ok (msg, ctx.withScope scope (setOwn "xlsxReader" value store))
      else
        match filterBoolean (split pathStr '.') with
        | [] => .ok (msg, ctx.withScope scope (setOwn "xlsxReader" value store))
        | rootKey :: parts =>
          if parts.isEmpty then
            .ok (msg, ctx.withScope scope (setOwn rootKey value store))
          else
            let rootObj :=
              if isObject (getOwn rootKey store) then getOwn rootKey store else emptyObject
            (setDeep env (kindOf rootObj) (propsOf rootObj) parts value).map
              (fun ps => (msg, ctx.withScope scope
                (setOwn rootKey (.obj (kindOf rootObj) ps) store)))

/-! ## Input handler (lines 23-126) -/

/-- Observable result of one invocation: the completion signal, the message
and the context stores afterwards, the message forwarded by `send` (if any)
and the file-system accesses made, in order. -/
structure Run where
  outcome : Except Err Unit
  msg : JVal
  ctx : Context
  sent : Option JVal
  io : List IOEvent

/-- The `catch` branch: the error is reported, nothing has been written. -/
def failWith (e : Err) (msg : JVal) (ctx : Context) (io : List IOEvent) : Run :=
  { outcome := .error e, msg := msg, ctx := ctx, sent := none, io := io }

/-- The compiled exclusion pattern (line 50). -/
def compileExclude (env : Env) (node : Node) : Except Err (Option (String → Bool)) :=
  if node.excludeRegex = "" then .ok none else (env.regExp node.excludeRegex).map some

/-- The input handler `node.on("input", ...)`. -/
def onInput (env : Env) (node : Node) (msg : JVal) (ctx : Context) : Run :=
  match env.evaluateNodeProperty node.path node.pathType msg ctx with
  | .error e => failWith e msg ctx []
  | .ok none => failWith "No path specified." msg ctx []
  | .ok (some filePath) =>
    if filePath = "" then failWith "No path specified." msg ctx []
    else
      match listFiles env node filePath with
      | (.error e, io) => failWith e msg ctx io
      | (.ok files, io) =>
        if files.isEmpty then
          failWith "No .xlsx files found for the provided path/mode." msg ctx io
        else
          match compileExclude env node with
          | .error e => failWith e msg ctx io
          | .ok exclude =>
            let mergedColumns := parseMergedColumns node.mergedColumnsRaw
            match aggregate env node exclude mergedColumns files with
            | (.error e, attempted) =>
              failWith e msg ctx (io ++ attempted.map IOEvent.readFile)
            | (.ok aggregated, attempted) =>
              match setOutput env node msg ctx aggregated.toJVal with
              | .error e => failWith e msg ctx (io ++ attempted.map IOEvent.readFile)
              | .ok (msg', ctx') =>
                { outcome := .ok (), msg := msg', ctx := ctx', sent := some msg',
                  io := io ++ attempted.map IOEvent.readFile }

/-! ## Auxiliary definitions used in the statements and proofs -/

/-- Value of the tracker `last` of `fillForward` after the rows `pre` have
been visited, starting from `last`. -/
def lastSeen (col : String) : JVal → List Row → JVal
  | last, [] => last
  | last, r :: rs =>
    if isEmpty (getOwn col r) then lastSeen col last rs
    else lastSeen col (getOwn col r) rs

/-- What one iteration of the inner loop of `fillForward` does to row `r`
when the tracker holds `last`. -/
def fillRow (col : String) (last : JVal) (r : Row) : Row :=
  if isEmpty (getOwn col r) then
    if !isEmpty last then setOwn col last r else r
  else r

/-- Rows of scenario A: `[{Name:"Alice",Dept:null},{Name:"Bob",Dept:"Eng"}]`. -/
def scenarioA : List Row :=
  [[("Name", .str "Alice"), ("Dept", .null)], [("Name", .str "Bob"), ("Dept", .str "Eng")]]

/-- Rows of scenario B: `[{Name:"Bob",Dept:"Eng"},{Name:"Alice",Dept:null}]`. -/
def scenarioB : List Row :=
  [[("Name", .str "Bob"), ("Dept", .str "Eng")], [("Name", .str "Alice"), ("Dept", .null)]]

/-- Expected result of scenario B. -/
def scenarioBFilled : List Row :=
  [[("Name", .str "Bob"), ("Dept", .str "Eng")], [("Name", .str "Alice"), ("Dept", .str "Eng")]]

/-- Predicate saying that the inner loop of `fillForward` for column `col`,
started with tracker `last`, meets no empty cell while the tracker is
non-empty, that is, performs no write. -/
def noFill (col : String) : JVal → List Row → Prop
  | _, [] => True
  | last, r :: rs =>
    if isEmpty (getOwn col r) then isEmpty last = true ∧ noFill col last rs
    else noFill col (getOwn col r) rs

/-- Predicate saying that no key of the row starts with `"__EMPTY"`. -/
def placeholderFree (r : Row) : Prop :=
  ∀ k ∈ keysOf r, startsWith k "__EMPTY" = false

/-- The reserved placeholder header names as the specification lists them:
`"__EMPTY"`, `"__EMPTY_1"`, `"__EMPTY_2"`, ..., that is `"__EMPTY"` alone or
`"__EMPTY_"` followed by one or more decimal digits. -/
def isPlaceholderName (k : String) : Bool :=
  decide (k = "__EMPTY") ||
    ("__EMPTY_".data.isPrefixOf k.data && !(k.data.drop 8).isEmpty &&
      (k.data.drop 8).all Char.isDigit)

/-- Row with a real header that merely starts with `"__EMPTY"`. -/
def noteRow : Row := [("__EMPTY_NOTE", .num 1), ("Name", .str "x")]

/-- Predicate saying that the name ends in `".xlsx"` up to letter case: its
last five characters, lowered, spell `".xlsx"`. -/
def EndsWithXlsxIgnoringCase (s : String) : Prop :=
  ∃ pre tail, s.data = pre ++ tail ∧ tail.map Char.toLower = ['.', 'x', 'l', 's', 'x']

/-- Host environment of the directory example: the directory `"/data"` lists
four entries; `"a.XLSX"` is a regular file, `"c.xlsx"` is a directory and the
stat check of `"d.xlsx"` throws.  The built-in prototypes are as shipped: no
object is inherited from them and the walks of the examples inside
`Object.prototype` complete; the conversion of strings, arrays and dates to
an array length is not used by the examples. -/
def dirEnv : Env where
  evaluateNodeProperty := fun p _ _ _ => .ok p
  readdirSync := fun _ => .ok ["a.XLSX", "b.txt", "c.xlsx", "d.xlsx"]
  statIsFile := fun p =>
    if p = "/data/a.XLSX" then .ok true
    else if p = "/data/c.xlsx" then .ok false
    else .error "ENOENT"
  join := fun d f => d ++ "/" ++ f
  readFile := fun _ => .error "unreadable"
  regExp := fun _ => .error "no pattern"
  setMessageProperty := fun m _ _ => .ok m
  inheritsObject := fun _ _ => false
  prototypeWalk := fun _ _ _ => .ok ()
  stringToArrayLength := fun _ => .error "Invalid array length"

/-- Node of the directory example. -/
def dirNode : Node :=
  XLSXReaderNode
    { path := some "/data", pathType := none, mode := some "directory", excludeRegex := none,
      includeHidden := false, outputTargetType := none, outputTargetPath := none,
      fillMerged := false, mergedColumns := none }

/-- Node whose configured path is the empty string. -/
def emptyPathNode : Node :=
  XLSXReaderNode
    { path := some "", pathType := none, mode := some "directory", excludeRegex := none,
      includeHidden := false, outputTargetType := some "flow", outputTargetPath := none,
      fillMerged := false, mergedColumns := none }

/-- Context whose flow and global stores are empty. -/
def emptyContext : Context := { flow := some [], global := some [] }

/-- Host environment of the failure example: the directory `"/data"` lists
three workbooks, all regular files; the first opens (no sheets), the second
cannot be read. -/
def failEnv : Env where
  evaluateNodeProperty := fun p _ _ _ => .ok p
  readdirSync := fun _ => .ok ["a.xlsx", "b.xlsx", "c.xlsx"]
  statIsFile := fun _ => .ok true
  join := fun d f => d ++ "/" ++ f
  readFile := fun p =>
    if p = "/data/a.xlsx" then .ok { SheetNames := [], rowsOf := fun _ => [], sheetEntries := none }
    else .error "corrupt workbook"
  regExp := fun _ => .error "no pattern"
  setMessageProperty := fun m _ _ => .ok m
  inheritsObject := fun _ _ => false
  prototypeWalk := fun _ _ _ => .ok ()
  stringToArrayLength := fun _ => .error "Invalid array length"

/-- Node writing to the flow store at the given deep path. -/
def flowNode (outputTargetPath : Option String) : Node :=
  XLSXReaderNode
    { path := some "/data", pathType := none, mode := none, excludeRegex := none,
      includeHidden := false, outputTargetType := some "flow",
      outputTargetPath := outputTargetPath, fillMerged := false, mergedColumns := none }

/-- Context whose flow store holds `{a:1,b:2}` under the key `root`. -/
def rootContext : Context :=
  { flow := some [("root", .obj .plain [("a", .num 1), ("b", .num 2)])], global := some [] }

/-- The inclusion test of a sheet as the specification words it: the sheet is
not hidden or hidden sheets are included, and no exclude pattern is set or the
pattern does not match the name. -/
def passesFilters (node : Node) (exclude : Option (String → Bool)) (wb : Workbook)
    (s : String) : Bool :=
  (!isHidden wb s || node.includeHidden) &&
    (match exclude with
     | none => true
     | some re => !re s)

/-- Row records recorded for sheet `s` of workbook `wb`. -/
def sheetData (node : Node) (mc : List String) (wb : Workbook) (s : String) : List Row :=
  normalize node.fillMerged mc (wb.rowsOf s)

/-- The object `resultMap[f]` once the sheets of `wb` have been visited. -/
def sheetObject (node : Node) (exclude : Option (String → Bool)) (mc : List String)
    (wb : Workbook) : SheetMap :=
  (wb.SheetNames.filter (passesFilters node exclude wb)).foldl
    (fun sh s => sh.assign s (sheetData node mc wb s)) Obj.empty

/-- Number of listings of a sheet in `wb` that pass the filters. -/
def includedSheets (node : Node) (exclude : Option (String → Bool)) (wb : Workbook) : Nat :=
  (wb.SheetNames.map (fun s => if passesFilters node exclude wb s then 1 else 0)).sum

/-- Number of row records of the sheets of `wb` that pass the filters. -/
def includedRows (node : Node) (exclude : Option (String → Bool)) (mc : List String)
    (wb : Workbook) : Nat :=
  (wb.SheetNames.map (fun s =>
    if passesFilters node exclude wb s then (sheetData node mc wb s).length else 0)).sum

/-- Apply `g` to the workbook of file `f`, with `d` for a file that cannot be read. -/
def onWorkbook {α : Type} (env : Env) (d : α) (g : Workbook → α) (f : String) : α :=
  match env.readFile f with
  | .ok wb => g wb
  | .error _ => d

/-- Row total of the sheet object held at a file key: the sum, over its
sheet keys `s`, of the number of row records it holds at `s`. -/
def sheetRows (o : Option SheetMap) : Nat :=
  ((keys (o.getD Obj.empty).own).map (fun s =>
    ((getKey? s (o.getD Obj.empty).own).getD []).length)).sum

/-- Sum, over every file key `f` of `data` and every sheet key `s` of
`data[f]`, of the number of row records in `data[f][s]`. -/
def totalRows (data : ResultMap) : Nat :=
  ((keys data.own).map (fun f => sheetRows (getKey? f data.own))).sum

/-- One row record `{Name: "x"}`. -/
def oneRow : List Row := [[("Name", .str "x")]]

/-- Host environment of the aggregation examples.  `a.xlsx` has the visible
sheet `S1` and the hidden sheet `Secret`, `b.xlsx` has the sheet `S2`,
`book.xlsx` has the sheets `Data` and `TempCalc`, `dup.xlsx` lists the sheet
name `S` twice and `proto.xlsx` has the sheets `Data` and `__proto__`; every
sheet holds one row.  The pattern `^Temp` compiles to the test "starts with
`Temp`". -/
def bookEnv : Env where
  evaluateNodeProperty := fun p _ _ _ => .ok p
  readdirSync := fun _ => .ok ["a.xlsx", "b.xlsx"]
  statIsFile := fun _ => .ok true
  join := fun d f => d ++ "/" ++ f
  readFile := fun p =>
    if p = "a.xlsx" then
      .ok { SheetNames := ["S1", "Secret"], rowsOf := fun _ => oneRow,
            sheetEntries := some [{ name := "S1", Hidden := 0 }, { name := "Secret", Hidden := 1 }] }
    else if p = "b.xlsx" then
      .ok { SheetNames := ["S2"], rowsOf := fun _ => oneRow, sheetEntries := none }
    else if p = "book.xlsx" then
      .ok { SheetNames := ["Data", "TempCalc"], rowsOf := fun _ => oneRow, sheetEntries := none }
    else if p = "dup.xlsx" then
      .ok { SheetNames := ["S", "S"], rowsOf := fun _ => oneRow, sheetEntries := none }
    else if p = "proto.xlsx" then
      .ok { SheetNames := ["Data", "__proto__"], rowsOf := fun _ => oneRow,
            sheetEntries := none }
    else .error "ENOENT"
  regExp := fun src =>
    if src = "^Temp" then .ok (fun s => startsWith s "Temp")
    else .error "Invalid regular expression"
  setMessageProperty := fun m _ _ => .ok m
  inheritsObject := fun _ _ => false
  prototypeWalk := fun _ _ _ => .ok ()
  stringToArrayLength := fun _ => .error "Invalid array length"

/-- The pattern `/^Temp/` as a test on sheet names. -/
def tempPattern : String → Bool := fun s => startsWith s "Temp"

/-- Node of the aggregation examples with the exclude pattern `^Temp`. -/
def tempNode : Node :=
  XLSXReaderNode
    { path := some "book.xlsx", pathType := none, mode := none, excludeRegex := some "^Temp",
      includeHidden := false, outputTargetType := none, outputTargetPath := none,
      fillMerged := false, mergedColumns := none }

/-- What the examples observe of an aggregated payload: the sheet keys of
`data[f]`, the summary, and the row total over the keys of `data`. -/
def observe (f : String) (r : Except Err Aggregated × List String) :
    Except Err (List String × Summary × Nat) :=
  r.1.map (fun agg =>
    (keys ((getKey? f agg.data.own).getD Obj.empty).own, agg.summary, totalRows agg.data))

/-- Aggregated payload of `book.xlsx` under the pattern `/^Temp/`. -/
def bookPayload : Aggregated :=
  buildAggregated tempNode []
    { resultMap :=
        { own := [("book.xlsx", { own := [("Data", oneRow)], proto := none })], proto := none }
      fileCount := 1, sheetCount := 1, rowCount := 1 }

/-- Context whose flow store holds the array `[1]` under the key `root`. -/
def arrayContext : Context :=
  { flow := some [("root", arrayOf [.num 1])], global := some [] }

/-! ## Theorems -/

/-! ### Own-property reads and writes -/

theorem getOwn_setOwn_same (k : String) (v : JVal) (ps : Props) :
    getOwn k (setOwn k v ps) = v := by
  induction ps with
  | nil => simp [setOwn, getOwn]
  | cons p ps ih =>
    obtain ⟨k', v'⟩ := p
    by_cases h : k' = k
    · simp [setOwn, getOwn, h]
    · simp [setOwn, getOwn, h, ih]

theorem getOwn_setOwn_other (k c : String) (v : JVal) (ps : Props) (h : c ≠ k) :
    getOwn c (setOwn k v ps) = getOwn c ps := by
  induction ps with
  | nil => simp [setOwn, getOwn, Ne.symm h]
  | cons p ps ih =>
    obtain ⟨k', v'⟩ := p
    by_cases hk : k' = k
    · subst hk
      simp [setOwn, getOwn, Ne.symm h]
    · by_cases hc : k' = c
      · subst hc
        simp [setOwn, getOwn, hk]
      · simp [setOwn, getOwn, hk, hc, ih]

/-! ### Forward fill -/

theorem fillColumn_length (col : String) (last : JVal) (rows : List Row) :
    (fillColumn col last rows).length = rows.length := by
  induction rows generalizing last with
  | nil => simp [fillColumn]
  | cons r rs ih =>
    unfold fillColumn
    split
    · split <;> simp [ih]
    · simp [ih]

theorem fillColumn_getElem? (col : String) (last : JVal) (rows : List Row) (i : Nat) :
    (fillColumn col last rows)[i]? =
      (rows[i]?).map (fillRow col (lastSeen col last (rows.take i))) := by
  induction rows generalizing last i with
  | nil => simp [fillColumn]
  | cons r rs ih =>
    cases i with
    | zero =>
      unfold fillColumn
      by_cases h1 : isEmpty (getOwn col r) = true
      · by_cases h2 : isEmpty last = true <;> simp [h1, h2, fillRow, lastSeen]
      · simp [h1, fillRow, lastSeen]
    | succ i =>
      unfold fillColumn
      by_cases h1 : isEmpty (getOwn col r) = true
      · by_cases h2 : isEmpty last = true <;> simp [h1, h2, lastSeen, ih]
      · simp [h1, lastSeen, ih]

theorem lastSeen_append (col : String) (last : JVal) (a b : List Row) :
    lastSeen col last (a ++ b) = lastSeen col (lastSeen col last a) b := by
  induction a generalizing last with
  | nil => simp [lastSeen]
  | cons r rs ih =>
    simp only [List.cons_append, lastSeen]
    split <;> exact ih _

theorem lastSeen_all_empty (col : String) (last : JVal) (pre : List Row)
    (h : ∀ r ∈ pre, isEmpty (getOwn col r) = true) : lastSeen col last pre = last := by
  induction pre with
  | nil => simp [lastSeen]
  | cons r rs ih =>
    have hr := h r (List.mem_cons_self _ _)
    simp only [lastSeen, hr, if_true]
    exact ih (fun x hx => h x (List.mem_cons_of_mem _ hx))

theorem lastSeen_nearest (col : String) (last : JVal) (p1 p2 : List Row) (rj : Row)
    (hj : isEmpty (getOwn col rj) = false)
    (h : ∀ r ∈ p2, isEmpty (getOwn col r) = true) :
    lastSeen col last (p1 ++ rj :: p2) = getOwn col rj := by
  rw [lastSeen_append]
  simp only [lastSeen, hj]
  exact lastSeen_all_empty col _ p2 h

theorem split_at_index {α : Type} (l : List α) (j : Nat) (x : α) (h : l[j]? = some x) :
    l = l.take j ++ x :: l.drop (j + 1) := by
  obtain ⟨hj, rfl⟩ := List.getElem?_eq_some.1 h
  rw [← List.drop_eq_getElem_cons hj, List.take_append_drop]

theorem fillForward_single (rows : List Row) (C : String) :
    fillForward rows [C] = fillColumn C .undefined rows := by
  cases rows with
  | nil => simp [fillForward, fillColumn]
  | cons r rs => simp [fillForward]

theorem isEmpty_undefined : isEmpty .undefined = true := rfl

/-- Claim C1. Forward fill of one column `C`: the row count is kept; a row whose
`C` cell is not empty is left as it is; a row whose `C` cell is empty reads, at
`C`, the original `C` value of the nearest preceding row with a non-empty `C`
cell (its other cells unchanged); and when no preceding row has a non-empty `C`
cell the row is left as it is.  Scenario A is returned unchanged and scenario
B gets its second `Dept` cell filled with `"Eng"`. -/
theorem fillForward_nearest_preceding (rows : List Row) (C : String) :
    (fillForward rows [C]).length = rows.length ∧
    (∀ (i : Nat) (r : Row), rows[i]? = some r →
      (isEmpty (getOwn C r) = false → (fillForward rows [C])[i]? = some r) ∧
      (isEmpty (getOwn C r) = true →
        (∀ (j : Nat) (rj : Row), j < i → rows[j]? = some rj →
          isEmpty (getOwn C rj) = false →
          (∀ (k : Nat) (rk : Row), j < k → k < i → rows[k]? = some rk →
            isEmpty (getOwn C rk) = true) →
          ∃ r', (fillForward rows [C])[i]? = some r' ∧
            getOwn C r' = getOwn C rj ∧ ∀ c, c ≠ C → getOwn c r' = getOwn c r) ∧
        ((∀ (j : Nat) (rj : Row), j < i → rows[j]? = some rj →
            isEmpty (getOwn C rj) = true) →
          (fillForward rows [C])[i]? = some r))) ∧
    fillForward scenarioA ["Dept"] = scenarioA ∧
    fillForward scenarioB ["Dept"] = scenarioBFilled := by
  refine ⟨?_, ?_, by rfl, by rfl⟩
  · rw [fillForward_single, fillColumn_length]
  · intro i r hi
    rw [fillForward_single, fillColumn_getElem?, hi]
    refine ⟨?_, fun hemp => ⟨?_, ?_⟩⟩
    · intro hne
      simp [fillRow, hne]
    · intro j rj hji hj hjne hbetween
      have hj' : (rows.take i)[j]? = some rj := by
        rw [List.getElem?_take_of_lt hji]; exact hj
      have hsplit := split_at_index (rows.take i) j rj hj'
      have hlast : lastSeen C .undefined (rows.take i) = getOwn C rj := by
        rw [hsplit]
        apply lastSeen_nearest C _ _ _ _ hjne
        intro x hx
        obtain ⟨n, hn⟩ := List.mem_iff_getElem?.1 hx
        rw [List.getElem?_drop, List.getElem?_take] at hn
        by_cases hlt : j + 1 + n < i
        · rw [if_pos hlt] at hn
          exact hbetween (j + 1 + n) x (by omega) hlt hn
        · rw [if_neg hlt] at hn
          cases hn
      refine ⟨setOwn C (getOwn C rj) r, ?_, getOwn_setOwn_same _ _ _, ?_⟩
      · simp [fillRow, hemp, hlast, hjne]
      · intro c hc
        exact getOwn_setOwn_other C c _ r hc
    · intro hall
      have hlast : lastSeen C .undefined (rows.take i) = .undefined := by
        apply lastSeen_all_empty
        intro x hx
        obtain ⟨n, hn⟩ := List.mem_iff_getElem?.1 hx
        rw [List.getElem?_take] at hn
        by_cases hlt : n < i
        · rw [if_pos hlt] at hn
          exact hall n x hlt hn
        · rw [if_neg hlt] at hn
          cases hn
      simp [fillRow, hemp, hlast, isEmpty_undefined]

/-! ### Idempotence of the forward fill -/

theorem noFill_cons (col : String) (last : JVal) (r : Row) (rs : List Row) :
    noFill col last (r :: rs) =
      if isEmpty (getOwn col r) then isEmpty last = true ∧ noFill col last rs
      else noFill col (getOwn col r) rs := rfl

theorem fillColumn_cons (col : String) (last : JVal) (r : Row) (rs : List Row) :
    fillColumn col last (r :: rs) =
      fillRow col last r ::
        fillColumn col (if isEmpty (getOwn col r) then last else getOwn col r) rs := by
  by_cases h1 : isEmpty (getOwn col r) = true
  · by_cases h2 : isEmpty last = true <;> simp [fillColumn, fillRow, h1, h2]
  · simp [fillColumn, fillRow, h1]

theorem getOwn_fillRow_other (c d : String) (hcd : c ≠ d) (last : JVal) (r : Row) :
    getOwn c (fillRow d last r) = getOwn c r := by
  unfold fillRow
  split
  · split
    · exact getOwn_setOwn_other d c _ r hcd
    · rfl
  · rfl

theorem fillColumn_of_noFill (col : String) (last : JVal) (rows : List Row)
    (h : noFill col last rows) : fillColumn col last rows = rows := by
  induction rows generalizing last with
  | nil => simp [fillColumn]
  | cons r rs ih =>
    rw [noFill_cons] at h
    rw [fillColumn_cons]
    by_cases h1 : isEmpty (getOwn col r) = true
    · rw [if_pos h1] at h
      simp [fillRow, h1, h.1, ih last h.2]
    · rw [if_neg h1] at h
      simp [fillRow, h1, ih _ h]

theorem noFill_fillColumn (col : String) (last : JVal) (rows : List Row) :
    noFill col last (fillColumn col last rows) := by
  induction rows generalizing last with
  | nil => simp [fillColumn, noFill]
  | cons r rs ih =>
    rw [fillColumn_cons, noFill_cons]
    by_cases h1 : isEmpty (getOwn col r) = true
    · by_cases h2 : isEmpty last = true
      · have hrow : fillRow col last r = r := by simp [fillRow, h1, h2]
        rw [hrow, if_pos h1, if_pos h1]
        exact ⟨h2, ih last⟩
      · have hrow : fillRow col last r = setOwn col last r := by simp [fillRow, h1, h2]
        rw [hrow, getOwn_setOwn_same, if_neg h2, if_pos h1]
        exact ih last
    · have hrow : fillRow col last r = r := by simp [fillRow, h1]
      rw [hrow, if_neg h1, if_neg h1]
      exact ih _

theorem noFill_fillColumn_other (c d : String) (hcd : c ≠ d) (last last' : JVal)
    (rows : List Row) (h : noFill c last rows) :
    noFill c last (fillColumn d last' rows) := by
  induction rows generalizing last last' with
  | nil => simp [fillColumn, noFill]
  | cons r rs ih =>
    rw [noFill_cons] at h
    rw [fillColumn_cons, noFill_cons, getOwn_fillRow_other c d hcd]
    by_cases hc : isEmpty (getOwn c r) = true
    · rw [if_pos hc] at h ⊢
      exact ⟨h.1, ih _ _ h.2⟩
    · rw [if_neg hc] at h ⊢
      exact ih _ _ h

theorem noFill_fillColumn_any (c d : String) (rows : List Row)
    (h : noFill c .undefined rows) : noFill c .undefined (fillColumn d .undefined rows) := by
  by_cases hcd : c = d
  · subst hcd
    exact noFill_fillColumn c _ rows
  · exact noFill_fillColumn_other c d hcd _ _ rows h

theorem noFill_foldl (cols : List String) (rows : List Row) (S : List String)
    (hS : ∀ c ∈ S, noFill c .undefined rows) :
    ∀ c ∈ S ++ cols,
      noFill c .undefined (cols.foldl (fun rs col => fillColumn col .undefined rs) rows) := by
  induction cols generalizing rows S with
  | nil => simpa using hS
  | cons col rest ih =>
    intro c hc
    simp only [List.foldl_cons]
    apply ih (fillColumn col .undefined rows) (S ++ [col])
    · intro c' hc'
      rcases List.mem_append.1 hc' with h | h
      · exact noFill_fillColumn_any c' col rows (hS c' h)
      · rw [List.mem_singleton] at h
        subst h
        exact noFill_fillColumn c' _ rows
    · simpa using hc

theorem foldl_fillColumn_of_noFill (cols : List String) (rows : List Row)
    (h : ∀ c ∈ cols, noFill c .undefined rows) :
    cols.foldl (fun rs col => fillColumn col .undefined rs) rows = rows := by
  induction cols with
  | nil => rfl
  | cons col rest ih =>
    simp only [List.foldl_cons]
    rw [fillColumn_of_noFill col _ rows (h col (List.mem_cons_self _ _))]
    exact ih (fun c hc => h c (List.mem_cons_of_mem _ hc))

theorem foldl_fillColumn_length (cols : List String) (rows : List Row) :
    (cols.foldl (fun rs col => fillColumn col .undefined rs) rows).length = rows.length := by
  induction cols generalizing rows with
  | nil => rfl
  | cons col rest ih =>
    simp only [List.foldl_cons]
    rw [ih, fillColumn_length]

theorem fillForward_length (rows : List Row) (cols : List String) :
    (fillForward rows cols).length = rows.length := by
  unfold fillForward
  split
  · rfl
  · exact foldl_fillColumn_length cols rows

theorem fillForward_idem (rows : List Row) (cols : List String) :
    fillForward (fillForward rows cols) cols = fillForward rows cols := by
  cases rows with
  | nil => simp [fillForward]
  | cons r rs =>
    have hne : (fillForward (r :: rs) cols).isEmpty = false := by
      have := fillForward_length (r :: rs) cols
      cases hf : fillForward (r :: rs) cols with
      | nil => rw [hf] at this; simp at this
      | cons _ _ => rfl
    have hstable : ∀ c ∈ cols, noFill c .undefined (fillForward (r :: rs) cols) := by
      intro c hc
      have := noFill_foldl cols (r :: rs) [] (by simp) c (by simpa using hc)
      simpa [fillForward] using this
    generalize fillForward (r :: rs) cols = out at hne hstable
    unfold fillForward
    rw [hne]
    simp only [Bool.false_eq_true, if_false]
    exact foldl_fillColumn_of_noFill cols _ hstable

/-! ### Placeholder removal -/

theorem foldl_deleteOwn_eq_filter (ks : List String) (r : Row) :
    ks.foldl (fun r key => if startsWith key "__EMPTY" then deleteOwn key r else r) r =
      r.filter (fun p => !(decide (p.1 ∈ ks) && startsWith p.1 "__EMPTY")) := by
  induction ks generalizing r with
  | nil => simp
  | cons k ks ih =>
    simp only [List.foldl_cons]
    rw [ih]
    by_cases hk : startsWith k "__EMPTY" = true
    · simp only [hk, if_true, deleteOwn, List.filter_filter]
      apply List.filter_congr
      intro p _
      by_cases hp : p.1 = k
      · simp [hp, hk]
      · simp [hp]
    · simp only [hk, Bool.false_eq_true, if_false]
      apply List.filter_congr
      intro p _
      by_cases hp : p.1 = k
      · simp [hp, hk]
      · simp [hp]

theorem removePlaceholders_eq_filter (row : Row) :
    removePlaceholders row = row.filter (fun p => !startsWith p.1 "__EMPTY") := by
  unfold removePlaceholders
  rw [foldl_deleteOwn_eq_filter]
  apply List.filter_congr
  intro p hp
  have : p.1 ∈ keysOf row := List.mem_map_of_mem Prod.fst hp
  simp [this]

theorem placeholderFree_removePlaceholders (row : Row) :
    placeholderFree (removePlaceholders row) := by
  intro k hk
  rw [removePlaceholders_eq_filter] at hk
  obtain ⟨p, hp, rfl⟩ := List.mem_map.1 hk
  have := (List.mem_filter.1 hp).2
  simpa using this

theorem removePlaceholders_of_placeholderFree (row : Row) (h : placeholderFree row) :
    removePlaceholders row = row := by
  rw [removePlaceholders_eq_filter, List.filter_eq_self]
  intro p hp
  have := h p.1 (List.mem_map_of_mem Prod.fst hp)
  simp [this]

theorem getOwn_of_not_mem_keys (k : String) (ps : Props) (h : k ∉ keysOf ps) :
    getOwn k ps = .undefined := by
  induction ps with
  | nil => rfl
  | cons p ps ih =>
    obtain ⟨k', v⟩ := p
    simp only [keysOf, List.map_cons, List.mem_cons, not_or] at h
    have hne : ¬ k' = k := fun e => h.1 e.symm
    simp only [getOwn, hne, if_false]
    exact ih h.2

theorem keysOf_setOwn (k : String) (v : JVal) (ps : Props) :
    ∀ x ∈ keysOf (setOwn k v ps), x = k ∨ x ∈ keysOf ps := by
  induction ps with
  | nil => intro x hx; simpa [setOwn, keysOf] using hx
  | cons p ps ih =>
    obtain ⟨k', v'⟩ := p
    intro x hx
    by_cases hk : k' = k
    · simp only [setOwn, hk, if_true, keysOf, List.map_cons, List.mem_cons] at hx ⊢
      rcases hx with h | h
      · exact Or.inl h
      · exact Or.inr (Or.inr h)
    · simp only [setOwn, hk, if_false, keysOf, List.map_cons, List.mem_cons] at hx ⊢
      rcases hx with h | h
      · exact Or.inr (Or.inl h)
      · rcases ih x h with h' | h'
        · exact Or.inl h'
        · exact Or.inr (Or.inr h')

theorem placeholderFree_fillColumn (col : String) (last : JVal) (rows : List Row)
    (hlast : startsWith col "__EMPTY" = true → isEmpty last = true)
    (h : ∀ r ∈ rows, placeholderFree r) :
    ∀ r ∈ fillColumn col last rows, placeholderFree r := by
  by_cases hcol : startsWith col "__EMPTY" = true
  · have hl := hlast hcol
    have hno : noFill col last rows := by
      clear hlast
      induction rows with
      | nil => trivial
      | cons r rs ih =>
        have hr : getOwn col r = .undefined := by
          apply getOwn_of_not_mem_keys
          intro hmem
          have := h r (List.mem_cons_self _ _) col hmem
          rw [hcol] at this
          cases this
        rw [noFill_cons, hr]
        simp only [isEmpty_undefined, if_true]
        exact ⟨hl, ih (fun x hx => h x (List.mem_cons_of_mem _ hx))⟩
    rw [fillColumn_of_noFill col last rows hno]
    exact h
  · clear hlast
    induction rows generalizing last with
    | nil => intro r hr; simp [fillColumn] at hr
    | cons r rs ih =>
      intro x hx
      rw [fillColumn_cons, List.mem_cons] at hx
      rcases hx with hx | hx
      · subst hx
        have hr := h r (List.mem_cons_self _ _)
        unfold fillRow
        split
        · split
          · intro k hk
            rcases keysOf_setOwn col last r k hk with e | e
            · subst e
              simpa using hcol
            · exact hr k e
          · exact hr
        · exact hr
      · exact ih _ (fun y hy => h y (List.mem_cons_of_mem _ hy)) x hx

theorem placeholderFree_foldl (cols : List String) (rows : List Row)
    (h : ∀ r ∈ rows, placeholderFree r) :
    ∀ r ∈ cols.foldl (fun rs col => fillColumn col .undefined rs) rows, placeholderFree r := by
  induction cols generalizing rows with
  | nil => exact h
  | cons col rest ih =>
    simp only [List.foldl_cons]
    exact ih _ (placeholderFree_fillColumn col _ rows (fun _ => rfl) h)

theorem placeholderFree_fillForward (cols : List String) (rows : List Row)
    (h : ∀ r ∈ rows, placeholderFree r) :
    ∀ r ∈ fillForward rows cols, placeholderFree r := by
  unfold fillForward
  split
  · exact h
  · exact placeholderFree_foldl cols rows h

theorem placeholderFree_normalize (fillMerged : Bool) (cols : List String) (data : List Row) :
    ∀ r ∈ normalize fillMerged cols data, placeholderFree r := by
  have hmap : ∀ r ∈ data.map removePlaceholders, placeholderFree r := by
    intro r hr
    obtain ⟨x, _, rfl⟩ := List.mem_map.1 hr
    exact placeholderFree_removePlaceholders x
  unfold normalize
  simp only
  split
  · exact placeholderFree_fillForward cols _ hmap
  · exact hmap

theorem map_removePlaceholders_of_free (rows : List Row)
    (h : ∀ r ∈ rows, placeholderFree r) : rows.map removePlaceholders = rows := by
  induction rows with
  | nil => rfl
  | cons r rs ih =>
    rw [List.map_cons, removePlaceholders_of_placeholderFree r (h r (List.mem_cons_self _ _)),
      ih (fun x hx => h x (List.mem_cons_of_mem _ hx))]

theorem normalize_def (fillMerged : Bool) (cols : List String) (data : List Row) :
    normalize fillMerged cols data =
      if (fillMerged && !cols.isEmpty) = true then
        fillForward (data.map removePlaceholders) cols
      else data.map removePlaceholders := rfl

/-- Claim C2. Normalisation with fill enabled is idempotent: a second forward
fill over the same columns changes nothing, and so does a second run of the
whole normalisation (placeholder removal followed by the forward fill) on an
already normalised row sequence, for every fill setting and column list. -/
theorem normalize_idempotent (rows : List Row) (cols : List String) :
    fillForward (fillForward rows cols) cols = fillForward rows cols ∧
    ∀ fillMerged : Bool,
      normalize fillMerged cols (normalize fillMerged cols rows) =
        normalize fillMerged cols rows := by
  have key : ∀ fillMerged : Bool,
      normalize fillMerged cols (normalize fillMerged cols rows) =
        normalize fillMerged cols rows := by
    intro fillMerged
    have hfree := placeholderFree_normalize fillMerged cols rows
    have hmap := map_removePlaceholders_of_free _ hfree
    rw [normalize_def fillMerged cols (normalize fillMerged cols rows), hmap]
    by_cases hc : (fillMerged && !cols.isEmpty) = true
    · rw [if_pos hc, normalize_def, if_pos hc]
      exact fillForward_idem _ cols
    · rw [if_neg hc]
  exact ⟨fillForward_idem rows cols, key⟩

theorem startsWith_of_isPlaceholderName (k : String) (h : isPlaceholderName k = true) :
    startsWith k "__EMPTY" = true := by
  unfold isPlaceholderName at h
  rcases Bool.or_eq_true _ _ ▸ h with h | h
  · have hk : k = "__EMPTY" := of_decide_eq_true h
    subst hk
    rfl
  · simp only [Bool.and_eq_true] at h
    have hp : "__EMPTY_".data <+: k.data := List.isPrefixOf_iff_prefix.1 h.1.1
    have hq : "__EMPTY".data <+: "__EMPTY_".data := ⟨['_'], rfl⟩
    exact List.isPrefixOf_iff_prefix.2 (hq.trans hp)

theorem getOwn_filter (k : String) (P : String × JVal → Bool) (ps : Props)
    (h : ∀ p ∈ ps, p.1 = k → P p = true) : getOwn k (ps.filter P) = getOwn k ps := by
  induction ps with
  | nil => rfl
  | cons p ps ih =>
    obtain ⟨k', v⟩ := p
    have ih' := ih (fun q hq => h q (List.mem_cons_of_mem _ hq))
    by_cases hk : k' = k
    · have hP := h (k', v) (List.mem_cons_self _ _) hk
      subst hk
      simp [List.filter_cons, hP, getOwn]
    · by_cases hP : P (k', v) = true
      · simp [List.filter_cons, hP, getOwn, hk, ih']
      · simp [List.filter_cons, hP, getOwn, hk, ih']

/-- Claim C10, as amended. Placeholder removal keeps the number and order of the
rows, each row becoming `removePlaceholders` of itself; afterwards no key of a
row starts with `"__EMPTY"`, so none is a placeholder name; and every key
that does not start with `"__EMPTY"` is kept with its value. -/
theorem removePlaceholders_keeps_other_keys (rows : List Row) :
    (rows.map removePlaceholders).length = rows.length ∧
    ∀ (i : Nat) (r : Row), rows[i]? = some r →
      (rows.map removePlaceholders)[i]? = some (removePlaceholders r) ∧
      (∀ k ∈ keysOf (removePlaceholders r),
        startsWith k "__EMPTY" = false ∧ isPlaceholderName k = false) ∧
      (∀ k, startsWith k "__EMPTY" = false →
        (k ∈ keysOf (removePlaceholders r) ↔ k ∈ keysOf r) ∧
        getOwn k (removePlaceholders r) = getOwn k r) := by
  refine ⟨by simp, ?_⟩
  intro i r hi
  refine ⟨by simp [hi], ?_, ?_⟩
  · intro k hk
    have hs := placeholderFree_removePlaceholders r k hk
    refine ⟨hs, ?_⟩
    cases hp : isPlaceholderName k with
    | false => rfl
    | true => rw [startsWith_of_isPlaceholderName k hp] at hs; cases hs
  · intro k hk
    rw [removePlaceholders_eq_filter]
    constructor
    · constructor
      · intro hmem
        obtain ⟨p, hp, rfl⟩ := List.mem_map.1 hmem
        exact List.mem_map_of_mem Prod.fst (List.mem_filter.1 hp).1
      · intro hmem
        obtain ⟨p, hp, rfl⟩ := List.mem_map.1 hmem
        exact List.mem_map_of_mem Prod.fst (List.mem_filter.2 ⟨hp, by simp [hk]⟩)
    · apply getOwn_filter
      intro p _ hpk
      simp [hpk, hk]

/-- Witness for C10: in `noteRow` the key `"Name"` is kept with its value. -/
theorem removePlaceholders_keeps_other_keys_witness :
    getOwn "Name" (removePlaceholders noteRow) = getOwn "Name" noteRow :=
  (((removePlaceholders_keeps_other_keys [noteRow]).2 0 noteRow rfl).2.2 "Name" rfl).2

/-- Counterexample to C10 as stated: the key `"__EMPTY_NOTE"` is not one of
the placeholder names `"__EMPTY"`, `"__EMPTY_1"`, ..., the row holds `1`
under it, and placeholder removal deletes it all the same. -/
theorem removePlaceholders_drops_prefixed_key :
    isPlaceholderName "__EMPTY_NOTE" = false ∧
    getOwn "__EMPTY_NOTE" noteRow = .num 1 ∧
    removePlaceholders noteRow = [("Name", .str "x")] ∧
    getOwn "__EMPTY_NOTE" (removePlaceholders noteRow) = .undefined := by
  refine ⟨by decide, rfl, rfl, rfl⟩

/-- Witness for C1: in scenario B the second row, whose `Dept` cell is
`null`, reads `"Eng"` after the fill, the value of the row before it. -/
theorem fillForward_nearest_preceding_witness :
    ∃ r', (fillForward scenarioB ["Dept"])[1]? = some r' ∧ getOwn "Dept" r' = .str "Eng" := by
  obtain ⟨r', h1, h2, _⟩ :=
    (((fillForward_nearest_preceding scenarioB "Dept").2.1 1 _ rfl).2 rfl).1 0 _
      (by decide) rfl rfl (by intro k rk h1 h2; omega)
  exact ⟨r', h1, h2⟩

/-! ### File listing -/

theorem hasXlsxExtension_iff (f : String) :
    hasXlsxExtension f = true ↔ EndsWithXlsxIgnoringCase f := by
  unfold hasXlsxExtension endsWith toLowerCase EndsWithXlsxIgnoringCase
  rw [List.isSuffixOf_iff_suffix]
  constructor
  · rintro ⟨t, ht⟩
    obtain ⟨l1, l2, h1, _, h3⟩ := List.map_eq_append_iff.1 ht.symm
    exact ⟨l1, l2, h1, h3⟩
  · rintro ⟨pre, tail, h1, h2⟩
    refine ⟨pre.map Char.toLower, ?_⟩
    show List.map Char.toLower pre ++ ['.', 'x', 'l', 's', 'x'] = List.map Char.toLower f.data
    rw [h1, List.map_append, h2]

theorem hasXlsxExtension_of_suffix (f p : String) (hs : f.data <:+ p.data)
    (h : hasXlsxExtension f = true) : hasXlsxExtension p = true := by
  unfold hasXlsxExtension endsWith toLowerCase at h ⊢
  rw [List.isSuffixOf_iff_suffix] at h ⊢
  exact h.trans (List.IsSuffix.map Char.toLower hs)

theorem isRegularFile_iff (env : Env) (p : String) :
    isRegularFile env p = true ↔ env.statIsFile p = .ok true := by
  unfold isRegularFile
  cases h : env.statIsFile p with
  | error e => simp
  | ok b => cases b <;> simp

/-- Claim C9. Directory mode, for a directory whose listing succeeds: the file
list is returned without error and consists exactly, in listing order, of the
joins of the directory path with the entries whose name ends in `".xlsx"` up
to letter case and whose joined path the stat check reports as a regular file;
a path whose stat check reports something else or throws is not in the list;
and when `path.join` keeps the entry name at the end of the joined path, every
returned path ends in `".xlsx"` up to letter case. -/
theorem listFiles_directory (env : Env) (node : Node) (dir : String) (entries : List String)
    (hmode : node.mode = "directory") (hread : env.readdirSync dir = .ok entries) :
    (listFiles env node dir).1 =
      .ok ((entries.filter (fun f =>
        hasXlsxExtension f && isRegularFile env (env.join dir f))).map (env.join dir)) ∧
    (∀ f, hasXlsxExtension f = true ↔ EndsWithXlsxIgnoringCase f) ∧
    (∀ p, isRegularFile env p = true ↔ env.statIsFile p = .ok true) ∧
    (∀ files, (listFiles env node dir).1 = .ok files →
      (∀ p, p ∈ files ↔ ∃ f ∈ entries, EndsWithXlsxIgnoringCase f ∧ p = env.join dir f ∧
        env.statIsFile p = .ok true) ∧
      (∀ p, (env.statIsFile p = .ok false ∨ ∃ e, env.statIsFile p = .error e) → p ∉ files) ∧
      ((∀ f ∈ entries, f.data <:+ (env.join dir f).data) →
        ∀ p ∈ files, EndsWithXlsxIgnoringCase p)) := by
  have hlist : (listFiles env node dir).1 =
      .ok ((entries.filter (fun f =>
        hasXlsxExtension f && isRegularFile env (env.join dir f))).map (env.join dir)) := by
    unfold listFiles
    rw [if_pos hmode, hread]
    simp only [List.filter_map, List.filter_filter]
    congr 2
    apply List.filter_congr
    intro f _
    exact Bool.and_comm _ _
  have hmem : ∀ p, p ∈ (entries.filter (fun f =>
        hasXlsxExtension f && isRegularFile env (env.join dir f))).map (env.join dir) ↔
      ∃ f ∈ entries, EndsWithXlsxIgnoringCase f ∧ p = env.join dir f ∧
        env.statIsFile p = .ok true := by
    intro p
    rw [List.mem_map]
    constructor
    · rintro ⟨f, hf, rfl⟩
      rw [List.mem_filter, Bool.and_eq_true] at hf
      exact ⟨f, hf.1, (hasXlsxExtension_iff f).1 hf.2.1, rfl,
        (isRegularFile_iff env _).1 hf.2.2⟩
    · rintro ⟨f, hf, hext, rfl, hstat⟩
      refine ⟨f, ?_, rfl⟩
      rw [List.mem_filter, Bool.and_eq_true]
      exact ⟨hf, (hasXlsxExtension_iff f).2 hext, (isRegularFile_iff env _).2 hstat⟩
  refine ⟨hlist, hasXlsxExtension_iff, isRegularFile_iff env, ?_⟩
  intro files hfiles
  rw [hlist] at hfiles
  cases hfiles
  refine ⟨hmem, ?_, ?_⟩
  · intro p hp hin
    obtain ⟨f, _, _, _, hstat⟩ := (hmem p).1 hin
    rw [hstat] at hp
    rcases hp with hp | ⟨e, hp⟩ <;> cases hp
  · intro hjoin p hin
    obtain ⟨f, hf, hext, rfl, _⟩ := (hmem p).1 hin
    exact (hasXlsxExtension_iff _).1
      (hasXlsxExtension_of_suffix f _ (hjoin f hf) ((hasXlsxExtension_iff f).2 hext))

/-- Witness for C9: of the entries `a.XLSX`, `b.txt`, `c.xlsx` (a directory)
and `d.xlsx` (stat check throws) exactly `/data/a.XLSX` is listed. -/
theorem listFiles_directory_witness :
    (listFiles dirEnv dirNode "/data").1 = .ok ["/data/a.XLSX"] :=
  (listFiles_directory dirEnv dirNode "/data" ["a.XLSX", "b.txt", "c.xlsx", "d.xlsx"]
    rfl rfl).1.trans (by rfl)

/-! ### Input handler: failures -/

/-- Claim C8. When the path resolves to no value or to the empty string the
invocation fails with the error `"No path specified."`, without any directory
listing, stat check or workbook read, and the message and the context stores
are as before; nothing is forwarded. -/
theorem onInput_no_path (env : Env) (node : Node) (msg : JVal) (ctx : Context)
    (h : env.evaluateNodeProperty node.path node.pathType msg ctx = .ok none ∨
      env.evaluateNodeProperty node.path node.pathType msg ctx = .ok (some "")) :
    (onInput env node msg ctx).outcome = .error "No path specified." ∧
    (onInput env node msg ctx).io = [] ∧
    (onInput env node msg ctx).msg = msg ∧
    (onInput env node msg ctx).ctx = ctx ∧
    (onInput env node msg ctx).sent = none := by
  have hrun : onInput env node msg ctx = failWith "No path specified." msg ctx [] := by
    unfold onInput
    rcases h with h | h
    · rw [h]
    · rw [h]
      simp
  rw [hrun]
  exact ⟨rfl, rfl, rfl, rfl, rfl⟩

/-- Witness for C8: a node whose configured path is the empty string. -/
theorem onInput_no_path_witness :
    (onInput dirEnv emptyPathNode .null emptyContext).outcome = .error "No path specified." ∧
    (onInput dirEnv emptyPathNode .null emptyContext).io = [] :=
  let h := onInput_no_path dirEnv emptyPathNode .null emptyContext (Or.inr rfl)
  ⟨h.1, h.2.1⟩

theorem listFiles_io_no_read (env : Env) (node : Node) (p f : String) :
    IOEvent.readFile f ∉ (listFiles env node p).2 := by
  unfold listFiles
  split
  · split
    · simp
    · simp
  · simp

theorem readAll_error (env : Env) (node : Node) (exclude : Option (String → Bool))
    (mc : List String) (files : List String) (acc : Acc) (e : Err)
    (h : (readAll env node exclude mc files acc).1 = .error e) :
    ∃ pre f post, files = pre ++ f :: post ∧
      (readAll env node exclude mc files acc).2 = pre ++ [f] ∧
      (∀ g ∈ pre, ∃ wb, env.readFile g = .ok wb) ∧ env.readFile f = .error e := by
  induction files generalizing acc with
  | nil => simp [readAll] at h
  | cons g gs ih =>
    unfold readAll at h ⊢
    cases hg : env.readFile g with
    | error e' =>
      rw [hg] at h
      simp only at h ⊢
      cases h
      exact ⟨[], g, gs, rfl, rfl, by simp, hg⟩
    | ok wb =>
      rw [hg] at h
      simp only at h ⊢
      obtain ⟨pre, f, post, h1, h2, h3, h4⟩ := ih _ h
      refine ⟨g :: pre, f, post, by rw [h1]; rfl, by rw [h2]; rfl, ?_, h4⟩
      intro x hx
      rcases List.mem_cons.1 hx with hx | hx
      · subst hx; exact ⟨wb, hg⟩
      · exact h3 x hx

theorem readAll_ok (env : Env) (node : Node) (exclude : Option (String → Bool))
    (mc : List String) (files : List String) (acc a : Acc)
    (h : (readAll env node exclude mc files acc).1 = .ok a) :
    (readAll env node exclude mc files acc).2 = files ∧
      ∀ g ∈ files, ∃ wb, env.readFile g = .ok wb := by
  induction files generalizing acc with
  | nil => simp [readAll]
  | cons g gs ih =>
    unfold readAll at h ⊢
    cases hg : env.readFile g with
    | error e' =>
      rw [hg] at h
      simp at h
    | ok wb =>
      rw [hg] at h
      simp only at h ⊢
      obtain ⟨h1, h2⟩ := ih _ h
      refine ⟨by rw [h1], ?_⟩
      intro x hx
      rcases List.mem_cons.1 hx with hx | hx
      · subst hx; exact ⟨wb, hg⟩
      · exact h2 x hx

theorem readAll_fails_at (env : Env) (node : Node) (exclude : Option (String → Bool))
    (mc : List String) (pre : List String) (f : String) (post : List String) (acc : Acc)
    (e : Err) (hpre : ∀ g ∈ pre, ∃ wb, env.readFile g = .ok wb)
    (hf : env.readFile f = .error e) :
    readAll env node exclude mc (pre ++ f :: post) acc = (.error e, pre ++ [f]) := by
  induction pre generalizing acc with
  | nil => simp [readAll, hf]
  | cons g gs ih =>
    obtain ⟨wb, hg⟩ := hpre g (List.mem_cons_self _ _)
    have ih' := ih (fileStep node exclude mc acc g wb)
      (fun x hx => hpre x (List.mem_cons_of_mem _ hx))
    rw [List.cons_append]
    unfold readAll
    rw [hg]
    simp only [ih']
    rfl

theorem aggregate_fst_snd (env : Env) (node : Node) (exclude : Option (String → Bool))
    (mc : List String) (files : List String) :
    aggregate env node exclude mc files =
      (((readAll env node exclude mc files
          { resultMap := Obj.empty, fileCount := 0, sheetCount := 0, rowCount := 0 }).1).map
          (buildAggregated node mc),
        (readAll env node exclude mc files
          { resultMap := Obj.empty, fileCount := 0, sheetCount := 0, rowCount := 0 }).2) := rfl

theorem aggregate_error (env : Env) (node : Node) (exclude : Option (String → Bool))
    (mc : List String) (files attempted : List String) (e : Err)
    (h : aggregate env node exclude mc files = (.error e, attempted)) :
    ∃ pre f post, files = pre ++ f :: post ∧ attempted = pre ++ [f] ∧
      (∀ g ∈ pre, ∃ wb, env.readFile g = .ok wb) ∧ env.readFile f = .error e := by
  rw [aggregate_fst_snd] at h
  have h1 := congrArg Prod.fst h
  have h2 := congrArg Prod.snd h
  simp only at h1 h2
  have h3 : (readAll env node exclude mc files
      { resultMap := Obj.empty, fileCount := 0, sheetCount := 0, rowCount := 0 }).1 = .error e := by
    revert h1
    cases (readAll env node exclude mc files
      { resultMap := Obj.empty, fileCount := 0, sheetCount := 0, rowCount := 0 }).1 with
    | error e' => intro h; cases h; rfl
    | ok a => intro h; cases h
  obtain ⟨pre, f, post, h4, h5, h6, h7⟩ := readAll_error _ _ _ _ _ _ _ h3
  exact ⟨pre, f, post, h4, by rw [← h2, h5], h6, h7⟩

theorem aggregate_ok (env : Env) (node : Node) (exclude : Option (String → Bool))
    (mc : List String) (files attempted : List String) (agg : Aggregated)
    (h : aggregate env node exclude mc files = (.ok agg, attempted)) :
    attempted = files ∧ (∀ g ∈ files, ∃ wb, env.readFile g = .ok wb) ∧
    ∃ acc, (readAll env node exclude mc files
        { resultMap := Obj.empty, fileCount := 0, sheetCount := 0, rowCount := 0 }).1 = .ok acc ∧
      agg = buildAggregated node mc acc := by
  rw [aggregate_fst_snd] at h
  have h1 := congrArg Prod.fst h
  have h2 := congrArg Prod.snd h
  simp only at h1 h2
  have h3 : ∃ acc, (readAll env node exclude mc files
      { resultMap := Obj.empty, fileCount := 0, sheetCount := 0, rowCount := 0 }).1 = .ok acc ∧
      agg = buildAggregated node mc acc := by
    revert h1
    cases (readAll env node exclude mc files
      { resultMap := Obj.empty, fileCount := 0, sheetCount := 0, rowCount := 0 }).1 with
    | error e' => intro h; cases h
    | ok a => intro h; cases h; exact ⟨a, rfl, rfl⟩
  obtain ⟨acc, h4, h5⟩ := h3
  obtain ⟨h6, h7⟩ := readAll_ok _ _ _ _ _ _ _ h4
  exact ⟨by rw [← h2, h6], h7, acc, h4, h5⟩

theorem onInput_shape (env : Env) (node : Node) (msg : JVal) (ctx : Context) :
    (∃ (e : Err) (io : List IOEvent), onInput env node msg ctx = failWith e msg ctx io ∧
      ∀ f, IOEvent.readFile f ∉ io) ∨
    (∃ (e : Err) (io : List IOEvent) (pre : List String) (f : String),
      onInput env node msg ctx =
        failWith e msg ctx (io ++ (pre ++ [f]).map IOEvent.readFile) ∧
      (∀ g, IOEvent.readFile g ∉ io) ∧
      (∀ g ∈ pre, ∃ wb, env.readFile g = .ok wb) ∧ env.readFile f = .error e) ∨
    (∃ (io : List IOEvent) (files : List String),
      (onInput env node msg ctx).io = io ++ files.map IOEvent.readFile ∧
      (∀ g, IOEvent.readFile g ∉ io) ∧ ∀ g ∈ files, ∃ wb, env.readFile g = .ok wb) := by
  generalize hrun : onInput env node msg ctx = run
  unfold onInput at hrun
  split at hrun
  · exact Or.inl ⟨_, _, hrun.symm, by simp⟩
  · exact Or.inl ⟨_, _, hrun.symm, by simp⟩
  · rename_i filePath _
    split at hrun
    · exact Or.inl ⟨_, _, hrun.symm, by simp⟩
    · have hio := listFiles_io_no_read env node filePath
      split at hrun
      · rename_i e io hl
        rw [hl] at hio
        exact Or.inl ⟨_, _, hrun.symm, fun f => hio f⟩
      · rename_i files io hl
        rw [hl] at hio
        split at hrun
        · exact Or.inl ⟨_, _, hrun.symm, fun f => hio f⟩
        · split at hrun
          · exact Or.inl ⟨_, _, hrun.symm, fun f => hio f⟩
          · rename_i exclude _
            dsimp only at hrun
            split at hrun
            · rename_i e attempted hagg
              obtain ⟨pre, f, post, _, h4, h5, h6⟩ := aggregate_error _ _ _ _ _ _ _ hagg
              rw [h4] at hrun
              exact Or.inr (Or.inl ⟨e, io, pre, f, hrun.symm, fun g => hio g, h5, h6⟩)
            · rename_i aggregated attempted hagg
              obtain ⟨h4, h5, _⟩ := aggregate_ok _ _ _ _ _ _ _ hagg
              subst h4
              refine Or.inr (Or.inr ⟨io, attempted, ?_, fun g => hio g, h5⟩)
              split at hrun <;> subst hrun <;> rfl

/-- Claim C7. A failing workbook read aborts the invocation.  Whenever the read
of a file was attempted during the invocation and that file cannot be opened or
parsed, the invocation ends with that error, the message and the context
stores are as before, nothing is forwarded, the failing read is the last
file-system access (no later file is read) and every read before it
succeeded.  And when the listed files are `pre ++ f :: post`, the files of
`pre` can be read and `f` cannot, the invocation is exactly that failure,
after reading `pre` and attempting `f`. -/
theorem onInput_read_failure (env : Env) (node : Node) (msg : JVal) (ctx : Context) :
    (∀ (f : String) (e : Err), IOEvent.readFile f ∈ (onInput env node msg ctx).io →
      env.readFile f = .error e →
      (onInput env node msg ctx).outcome = .error e ∧
      (onInput env node msg ctx).msg = msg ∧
      (onInput env node msg ctx).ctx = ctx ∧
      (onInput env node msg ctx).sent = none ∧
      ∃ before, (onInput env node msg ctx).io = before ++ [IOEvent.readFile f] ∧
        ∀ g, IOEvent.readFile g ∈ before → ∃ wb, env.readFile g = .ok wb) ∧
    (∀ (p : String) (io : List IOEvent) (files : List String)
      (exclude : Option (String → Bool)) (pre : List String) (f : String)
      (post : List String) (e : Err),
      env.evaluateNodeProperty node.path node.pathType msg ctx = .ok (some p) → p ≠ "" →
      listFiles env node p = (.ok files, io) → files = pre ++ f :: post →
      compileExclude env node = .ok exclude →
      (∀ g ∈ pre, ∃ wb, env.readFile g = .ok wb) → env.readFile f = .error e →
      onInput env node msg ctx =
        failWith e msg ctx (io ++ (pre ++ [f]).map IOEvent.readFile)) := by
  constructor
  · intro f e hin hfail
    rcases onInput_shape env node msg ctx with ⟨e', io, hrun, hio⟩ |
      ⟨e', io, pre, f', hrun, hio, hpre, hf'⟩ | ⟨io, files, hrun, hio, hfiles⟩
    · rw [hrun] at hin
      exact absurd hin (hio f)
    · rw [hrun] at hin ⊢
      simp only [failWith, List.mem_append, List.mem_map, IOEvent.readFile.injEq,
        exists_eq_right, List.mem_singleton] at hin
      have hff : f = f' := by
        rcases hin with hin | hin | hin
        · exact absurd hin (hio f)
        · obtain ⟨wb, hwb⟩ := hpre f hin
          rw [hwb] at hfail
          cases hfail
        · exact hin
      subst hff
      rw [hfail] at hf'
      cases hf'
      refine ⟨rfl, rfl, rfl, rfl, io ++ pre.map IOEvent.readFile, ?_, ?_⟩
      · simp [failWith]
      · intro g hg
        rcases List.mem_append.1 hg with hg | hg
        · exact absurd hg (hio g)
        · obtain ⟨x, hx, hxg⟩ := List.mem_map.1 hg
          cases hxg
          exact hpre g hx
    · rw [hrun] at hin
      rcases List.mem_append.1 hin with hin | hin
      · exact absurd hin (hio f)
      · obtain ⟨x, hx, hxg⟩ := List.mem_map.1 hin
        cases hxg
        obtain ⟨wb, hwb⟩ := hfiles f hx
        rw [hwb] at hfail
        cases hfail
  · intro p io files exclude pre f post e hp hne hlist hfiles hex hpre hf
    have hagg : aggregate env node exclude (parseMergedColumns node.mergedColumnsRaw) files =
        (.error e, pre ++ [f]) := by
      rw [aggregate_fst_snd, hfiles, readAll_fails_at _ _ _ _ _ _ _ _ _ hpre hf]
      rfl
    have hnonempty : files.isEmpty = false := by
      rw [hfiles]
      cases pre <;> rfl
    unfold onInput
    rw [hp]
    simp only [hne, if_false, hlist, hnonempty, Bool.false_eq_true, hex, hagg]

/-- Witness for C7: of three listed workbooks the second cannot be read; the
invocation fails with its error after reading the first and attempting the
second, and the third is never read. -/
theorem onInput_read_failure_witness :
    onInput failEnv dirNode .null emptyContext =
      failWith "corrupt workbook" .null emptyContext
        [IOEvent.readdir "/data", IOEvent.stat "/data/a.xlsx", IOEvent.stat "/data/b.xlsx",
          IOEvent.stat "/data/c.xlsx", IOEvent.readFile "/data/a.xlsx",
          IOEvent.readFile "/data/b.xlsx"] :=
  (onInput_read_failure failEnv dirNode .null emptyContext).2 "/data"
    [IOEvent.readdir "/data", IOEvent.stat "/data/a.xlsx", IOEvent.stat "/data/b.xlsx",
      IOEvent.stat "/data/c.xlsx"]
    ["/data/a.xlsx", "/data/b.xlsx", "/data/c.xlsx"] none ["/data/a.xlsx"] "/data/b.xlsx"
    ["/data/c.xlsx"] "corrupt workbook" rfl (by decide) (by rfl) rfl rfl
    (by intro g hg; rw [List.mem_singleton] at hg; subst hg; exact ⟨_, rfl⟩) rfl

/-! ### Output writer -/

theorem trim_eq_empty_iff (s : String) :
    trim s = "" ↔ ∀ c ∈ s.data, isJsWhiteSpace c = true := by
  unfold trim
  constructor
  · intro h
    have h1 : ((s.data.dropWhile isJsWhiteSpace).reverse.dropWhile isJsWhiteSpace).reverse = [] :=
      congrArg String.data h
    rw [List.reverse_eq_nil_iff, List.dropWhile_eq_nil_iff] at h1
    have h2 : ∀ x ∈ s.data.dropWhile isJsWhiteSpace, isJsWhiteSpace x = true :=
      fun x hx => h1 x (List.mem_reverse.2 hx)
    have h3 : (s.data.dropWhile isJsWhiteSpace).dropWhile isJsWhiteSpace = [] :=
      List.dropWhile_eq_nil_iff.2 h2
    rw [List.dropWhile_idempotent] at h3
    exact List.dropWhile_eq_nil_iff.1 h3
  · intro h
    have h1 : s.data.dropWhile isJsWhiteSpace = [] := List.dropWhile_eq_nil_iff.2 h
    rw [h1]
    rfl

theorem orElse_of_ne (s d : String) (h : s ≠ "") : orElse s d = s := by
  simp [orElse, h]

theorem scope_withScope (ctx : Context) (scope : String) (store : Props)
    (hs : scope = "flow" ∨ scope = "global") :
    (ctx.withScope scope store).scope scope = some store := by
  rcases hs with hs | hs <;> subst hs <;> rfl

theorem scope_withScope_other (ctx : Context) (scope other : String) (store : Props)
    (hs : scope = "flow" ∨ scope = "global") (ho : other ≠ scope) :
    (ctx.withScope scope store).scope other = ctx.scope other := by
  rcases hs with hs | hs
  · subst hs
    simp [Context.withScope, Context.scope, ho]
  · subst hs
    simp only [Context.withScope, Context.scope]
    by_cases h : other = "flow"
    · subst h; simp
    · simp [h, ho]

theorem setOutput_store (env : Env) (node : Node) (msg : JVal) (ctx : Context) (P : JVal)
    (scope : String) (store : Props) (hscope : node.outputTargetType = scope)
    (hs : scope = "flow" ∨ scope = "global") (hstore : ctx.scope scope = some store) :
    setOutput env node msg ctx P =
      if orElse node.outputTargetPath "data" = "" ∨
          trim (orElse node.outputTargetPath "data") = "" then
        .ok (msg, ctx.withScope scope (setOwn "xlsxReader" P store))
      else
        match filterBoolean (split (orElse node.outputTargetPath "data") '.') with
        | [] => .ok (msg, ctx.withScope scope (setOwn "xlsxReader" P store))
        | rootKey :: parts =>
          if parts.isEmpty then .ok (msg, ctx.withScope scope (setOwn rootKey P store))
          else
            (setDeep env
              (kindOf (if isObject (getOwn rootKey store) then getOwn rootKey store
                else emptyObject))
              (propsOf (if isObject (getOwn rootKey store) then getOwn rootKey store
                else emptyObject)) parts P).map
              (fun ps => (msg, ctx.withScope scope
                (setOwn rootKey
                  (.obj (kindOf (if isObject (getOwn rootKey store) then getOwn rootKey store
                    else emptyObject)) ps) store))) := by
  have h1 : orElse node.outputTargetType "msg" = scope := by
    rw [hscope]
    rcases hs with hs | hs <;> subst hs <;> rfl
  have h2 : scope ≠ "msg" := by
    rcases hs with hs | hs <;> subst hs <;> decide
  unfold setOutput
  simp only [h1, h2, if_false, hstore, Bool.or_eq_true, decide_eq_true_eq]

/-- Claim C5, as amended. Output scope `flow` or `global` with a store exposing
get/set.  When the configured deep path is not empty and blank (white space
only), the payload is stored under the key `"xlsxReader"` of that store: the
message is untouched, that key reads the payload afterwards, every other key
of the store reads as before and the other store is untouched.  When the
configured deep path is empty or not provided, the default `"data"` applies
and the payload is stored under the key `"data"` instead. -/
theorem setOutput_blank_path (env : Env) (config : Config) (msg : JVal) (ctx : Context)
    (P : JVal) (scope : String) (store : Props)
    (hscope : config.outputTargetType = some scope)
    (hs : scope = "flow" ∨ scope = "global") (hstore : ctx.scope scope = some store) :
    (∀ pathStr, config.outputTargetPath = some pathStr → pathStr ≠ "" →
      (∀ c ∈ pathStr.data, isJsWhiteSpace c = true) →
      setOutput env (XLSXReaderNode config) msg ctx P =
        .ok (msg, ctx.withScope scope (setOwn "xlsxReader" P store)) ∧
      (ctx.withScope scope (setOwn "xlsxReader" P store)).scope scope =
        some (setOwn "xlsxReader" P store) ∧
      getOwn "xlsxReader" (setOwn "xlsxReader" P store) = P ∧
      (∀ k, k ≠ "xlsxReader" → getOwn k (setOwn "xlsxReader" P store) = getOwn k store) ∧
      (∀ other, other ≠ scope →
        (ctx.withScope scope (setOwn "xlsxReader" P store)).scope other = ctx.scope other)) ∧
    ((config.outputTargetPath = none ∨ config.outputTargetPath = some "") →
      setOutput env (XLSXReaderNode config) msg ctx P =
        .ok (msg, ctx.withScope scope (setOwn "data" P store))) := by
  have hne : scope ≠ "" := by
    rcases hs with hs | hs <;> subst hs <;> decide
  have htype : (XLSXReaderNode config).outputTargetType = scope := by
    simp [XLSXReaderNode, hscope, orDefault, orElse, hne]
  constructor
  · intro pathStr hpath hnonempty hblank
    have hp : (XLSXReaderNode config).outputTargetPath = pathStr := by
      simp [XLSXReaderNode, hpath, orDefault, orElse, hnonempty]
    refine ⟨?_, scope_withScope ctx scope _ hs, getOwn_setOwn_same _ _ _,
      fun k hk => getOwn_setOwn_other _ _ _ _ hk,
      fun other ho => scope_withScope_other ctx scope other _ hs ho⟩
    rw [setOutput_store env _ msg ctx P scope store htype hs hstore, hp,
      orElse_of_ne pathStr "data" hnonempty]
    rw [if_pos (Or.inr ((trim_eq_empty_iff pathStr).2 hblank))]
  · intro hpath
    have hp : (XLSXReaderNode config).outputTargetPath = "data" := by
      rcases hpath with h | h <;> simp [XLSXReaderNode, h, orDefault, orElse]
    rw [setOutput_store env _ msg ctx P scope store htype hs hstore, hp]
    rfl

/-- Witness for C5: the configured path `"  "` (two blanks) with the flow
store `{root: {a:1,b:2}}`. -/
theorem setOutput_blank_path_witness :
    setOutput dirEnv (flowNode (some "  ")) .null rootContext (.str "payload") =
      .ok (.null, rootContext.withScope "flow"
        (setOwn "xlsxReader" (.str "payload")
          [("root", .obj .plain [("a", .num 1), ("b", .num 2)])])) :=
  ((setOutput_blank_path dirEnv
    { path := some "/data", pathType := none, mode := none, excludeRegex := none,
      includeHidden := false, outputTargetType := some "flow",
      outputTargetPath := some "  ", fillMerged := false, mergedColumns := none }
    .null rootContext (.str "payload") "flow" _ rfl (Or.inl rfl) rfl).1 "  " rfl (by decide)
    (by decide)).1

/-- Counterexample to C5 as stated: with the configured deep path empty and
the flow store empty, the payload is stored under the key `"data"`, and the
key `"xlsxReader"` stays unset. -/
theorem setOutput_empty_path_uses_data :
    setOutput dirEnv (flowNode (some "")) .null emptyContext (.str "payload") =
      .ok (.null, { flow := some [("data", .str "payload")], global := some [] }) ∧
    getOwn "xlsxReader" [("data", JVal.str "payload")] = .undefined ∧
    getOwn "data" [("data", JVal.str "payload")] = .str "payload" := by
  refine ⟨rfl, rfl, rfl⟩

/-- Claim C4, evaluated where the code departs from it.  Flow store
`{root: {a:1, b:2}}`, payload an aggregated payload, built-in prototypes as
shipped.  With the output path `root.__proto__.x` the walk of `setDeep` reads
`cur["__proto__"]`, the shared prototype, and goes on inside it: the write
completes and the store is exactly as before, so the value stored at `root`
has no own key `__proto__` and does not hold the payload at `__proto__.x`.
With the output path `root.__proto__` the last assignment replaces the
prototype of the root object and adds no key: the store is again as before.
With the array `[1]` under `root` and the output path `root.length` the
last assignment throws `RangeError` and nothing is stored.  For comparison,
the output path `root.b` yields `{a:1, b:P}` under `root`, as the claim
says. -/
theorem setOutput_leaves_own_properties :
    setOutput dirEnv (flowNode (some "root.__proto__.x")) .null rootContext
        bookPayload.toJVal = .ok (.null, rootContext) ∧
    hasOwn "__proto__" [("a", .num 1), ("b", .num 2)] = false ∧
    getPath (.obj .plain [("a", .num 1), ("b", .num 2)]) ["__proto__", "x"] = .undefined ∧
    setOutput dirEnv (flowNode (some "root.__proto__")) .null rootContext
        bookPayload.toJVal = .ok (.null, rootContext) ∧
    setOutput dirEnv (flowNode (some "root.length")) .null arrayContext
        bookPayload.toJVal = .error "Invalid array length" ∧
    setOutput dirEnv (flowNode (some "root.b")) .null rootContext bookPayload.toJVal =
      .ok (.null, { flow := some [("root", .obj .plain
                      [("a", .num 1), ("b", bookPayload.toJVal)])],
                    global := some [] }) := by
  refine ⟨rfl, rfl, rfl, rfl, rfl, rfl⟩

/-! ### Typed object maps -/

theorem getKey?_setKey_same {α : Type} (k : String) (v : α) (m : List (String × α)) :
    getKey? k (setKey k v m) = some v := by
  induction m with
  | nil => simp [setKey, getKey?]
  | cons p m ih =>
    obtain ⟨k', v'⟩ := p
    by_cases h : k' = k
    · simp [setKey, getKey?, h]
    · simp [setKey, getKey?, h, ih]

theorem getKey?_setKey_other {α : Type} (k c : String) (v : α) (m : List (String × α))
    (h : c ≠ k) : getKey? c (setKey k v m) = getKey? c m := by
  induction m with
  | nil => simp [setKey, getKey?, Ne.symm h]
  | cons p m ih =>
    obtain ⟨k', v'⟩ := p
    by_cases hk : k' = k
    · subst hk
      simp [setKey, getKey?, Ne.symm h]
    · by_cases hc : k' = c
      · subst hc
        simp [setKey, getKey?, hk]
      · simp [setKey, getKey?, hk, hc, ih]

theorem mem_keys_setKey {α : Type} (k c : String) (v : α) (m : List (String × α)) :
    c ∈ keys (setKey k v m) ↔ c = k ∨ c ∈ keys m := by
  induction m with
  | nil => simp [setKey, keys]
  | cons p m ih =>
    obtain ⟨k', v'⟩ := p
    by_cases h : k' = k
    · subst h
      simp [setKey, keys]
    · simp only [setKey, h, if_false, keys, List.map_cons, List.mem_cons] at ih ⊢
      rw [ih]
      tauto

theorem setKey_of_not_mem {α : Type} (k : String) (v : α) (m : List (String × α))
    (h : k ∉ keys m) : setKey k v m = m ++ [(k, v)] := by
  induction m with
  | nil => rfl
  | cons p m ih =>
    obtain ⟨k', v'⟩ := p
    simp only [keys, List.map_cons, List.mem_cons, not_or] at h
    have hne : ¬ k' = k := fun e => h.1 e.symm
    simp only [setKey, hne, if_false, List.cons_append]
    rw [ih h.2]

/-- Writing the keys `l` in order, key `s` receiving `d s`. -/
theorem mem_keys_foldl_setKey {α : Type} (d : String → α) (l : List String)
    (m : List (String × α)) (c : String) :
    c ∈ keys (l.foldl (fun sh s => setKey s (d s) sh) m) ↔ c ∈ keys m ∨ c ∈ l := by
  induction l generalizing m with
  | nil => simp
  | cons s l ih =>
    simp only [List.foldl_cons, List.mem_cons]
    rw [ih, mem_keys_setKey]
    tauto

theorem getKey?_foldl_setKey {α : Type} (d : String → α) (l : List String)
    (m : List (String × α)) (c : String) (h : c ∈ l ∨ getKey? c m = some (d c)) :
    getKey? c (l.foldl (fun sh s => setKey s (d s) sh) m) = some (d c) := by
  induction l generalizing m with
  | nil =>
    rcases h with h | h
    · cases h
    · exact h
  | cons s l ih =>
    simp only [List.foldl_cons]
    apply ih
    by_cases hs : c = s
    · subst hs
      exact Or.inr (getKey?_setKey_same _ _ _)
    · rcases h with h | h
      · rcases List.mem_cons.1 h with h | h
        · exact absurd h hs
        · exact Or.inl h
      · exact Or.inr (by rw [getKey?_setKey_other _ _ _ _ hs]; exact h)

theorem foldl_setKey_nodup {α : Type} (d : String → α) (l : List String)
    (m : List (String × α)) (hl : l.Nodup) (hm : ∀ s ∈ l, s ∉ keys m) :
    l.foldl (fun sh s => setKey s (d s) sh) m = m ++ l.map (fun s => (s, d s)) := by
  induction l generalizing m with
  | nil => simp
  | cons s l ih =>
    have hs : s ∉ keys m := hm s (List.mem_cons_self _ _)
    have hnodup := List.nodup_cons.1 hl
    simp only [List.foldl_cons, List.map_cons]
    rw [setKey_of_not_mem s (d s) m hs, ih (m ++ [(s, d s)]) hnodup.2]
    · simp
    · intro x hx hin
      simp only [keys, List.map_append, List.map_cons, List.map_nil, List.mem_append,
        List.mem_singleton] at hin
      rcases hin with hin | hin
      · exact hm x (List.mem_cons_of_mem _ hx) hin
      · subst hin
        exact hnodup.1 hx

/-! ### Aggregation: closed forms of the loops -/

theorem own_foldl_assign {α : Type} (d : String → α) (l : List String) (o : Obj α) :
    (l.foldl (fun sh s => sh.assign s (d s)) o).own =
      (l.filter (fun s => decide (s ≠ "__proto__"))).foldl
        (fun m s => setKey s (d s) m) o.own := by
  induction l generalizing o with
  | nil => rfl
  | cons s l ih =>
    simp only [List.foldl_cons]
    rw [ih]
    by_cases hs : s = "__proto__"
    · subst hs
      simp [Obj.assign]
    · simp [Obj.assign, hs, List.filter_cons]

theorem filter_ne_proto (l : List String) (h : "__proto__" ∉ l) :
    l.filter (fun s => decide (s ≠ "__proto__")) = l := by
  rw [List.filter_eq_self]
  intro s hs
  have : s ≠ "__proto__" := fun e => h (e ▸ hs)
  simpa using this

theorem sheetStep_eq (node : Node) (exclude : Option (String → Bool)) (mc : List String)
    (wb : Workbook) (st : SheetAcc) (s : String) :
    sheetStep node exclude mc wb st s =
      if passesFilters node exclude wb s then
        { sheets := st.sheets.assign s (sheetData node mc wb s)
          sheetCount := st.sheetCount + 1
          rowCount := st.rowCount + (sheetData node mc wb s).length }
      else st := by
  unfold sheetStep passesFilters excluded sheetData
  cases hh : isHidden wb s <;> cases hi : node.includeHidden <;> cases exclude with
  | none => simp
  | some re => cases hr : re s <;> simp [hr]

theorem foldl_sheetStep (node : Node) (exclude : Option (String → Bool)) (mc : List String)
    (wb : Workbook) (names : List String) (st : SheetAcc) :
    (names.foldl (sheetStep node exclude mc wb) st).sheets =
      (names.filter (passesFilters node exclude wb)).foldl
        (fun sh s => sh.assign s (sheetData node mc wb s)) st.sheets ∧
    (names.foldl (sheetStep node exclude mc wb) st).sheetCount =
      st.sheetCount +
        (names.map (fun s => if passesFilters node exclude wb s then 1 else 0)).sum ∧
    (names.foldl (sheetStep node exclude mc wb) st).rowCount =
      st.rowCount + (names.map (fun s =>
        if passesFilters node exclude wb s then (sheetData node mc wb s).length else 0)).sum := by
  induction names generalizing st with
  | nil => simp
  | cons s names ih =>
    simp only [List.foldl_cons, List.map_cons, List.sum_cons]
    rw [sheetStep_eq]
    by_cases hp : passesFilters node exclude wb s = true
    · simp only [hp, if_true, List.filter_cons_of_pos, List.foldl_cons]
      obtain ⟨h1, h2, h3⟩ := ih
        { sheets := st.sheets.assign s (sheetData node mc wb s)
          sheetCount := st.sheetCount + 1
          rowCount := st.rowCount + (sheetData node mc wb s).length }
      refine ⟨h1, ?_, ?_⟩
      · rw [h2]; simp only; omega
      · rw [h3]; simp only; omega
    · simp only [hp, Bool.false_eq_true, if_false]
      rw [List.filter_cons_of_neg hp]
      obtain ⟨h1, h2, h3⟩ := ih st
      refine ⟨h1, ?_, ?_⟩
      · rw [h2]; omega
      · rw [h3]; omega

theorem fileStep_closed (node : Node) (exclude : Option (String → Bool)) (mc : List String)
    (acc : Acc) (f : String) (wb : Workbook) :
    (fileStep node exclude mc acc f wb).resultMap =
      acc.resultMap.assign f (sheetObject node exclude mc wb) ∧
    (fileStep node exclude mc acc f wb).fileCount = acc.fileCount + 1 ∧
    (fileStep node exclude mc acc f wb).sheetCount =
      acc.sheetCount + includedSheets node exclude wb ∧
    (fileStep node exclude mc acc f wb).rowCount =
      acc.rowCount + includedRows node exclude mc wb := by
  obtain ⟨h1, h2, h3⟩ := foldl_sheetStep node exclude mc wb wb.SheetNames
    { sheets := Obj.empty, sheetCount := acc.sheetCount, rowCount := acc.rowCount }
  unfold fileStep
  simp only
  refine ⟨?_, trivial, ?_, ?_⟩
  · rw [h1]; rfl
  · rw [h2]; rfl
  · rw [h3]; rfl

theorem readAll_closed (env : Env) (node : Node) (exclude : Option (String → Bool))
    (mc : List String) (files : List String) (acc a : Acc)
    (h : (readAll env node exclude mc files acc).1 = .ok a) :
    a.resultMap = files.foldl
      (fun m f => m.assign f (onWorkbook env Obj.empty (sheetObject node exclude mc) f))
      acc.resultMap ∧
    a.fileCount = acc.fileCount + files.length ∧
    a.sheetCount = acc.sheetCount +
      (files.map (onWorkbook env 0 (includedSheets node exclude))).sum ∧
    a.rowCount = acc.rowCount +
      (files.map (onWorkbook env 0 (includedRows node exclude mc))).sum := by
  induction files generalizing acc with
  | nil =>
    simp only [readAll] at h
    cases h
    simp
  | cons g gs ih =>
    unfold readAll at h
    cases hg : env.readFile g with
    | error e' =>
      rw [hg] at h
      simp at h
    | ok wb =>
      rw [hg] at h
      simp only at h
      obtain ⟨h1, h2, h3, h4⟩ := ih _ h
      obtain ⟨c1, c2, c3, c4⟩ := fileStep_closed node exclude mc acc g wb
      simp only [List.foldl_cons, List.map_cons, List.sum_cons, List.length_cons, onWorkbook, hg]
      refine ⟨?_, ?_, ?_, ?_⟩
      · rw [h1, c1]; rfl
      · rw [h2, c2]; omega
      · rw [h3, c3]; omega
      · rw [h4, c4]; omega

theorem getKey?_data (env : Env) (node : Node) (exclude : Option (String → Bool))
    (mc : List String) (files : List String) (f : String) (hf : f ∈ files)
    (hproto : f ≠ "__proto__") (wb : Workbook) (hwb : env.readFile f = .ok wb) :
    getKey? f (files.foldl
      (fun m f => m.assign f (onWorkbook env Obj.empty (sheetObject node exclude mc) f))
      Obj.empty).own = some (sheetObject node exclude mc wb) := by
  rw [own_foldl_assign (fun f => onWorkbook env Obj.empty (sheetObject node exclude mc) f)]
  have hmem : f ∈ files.filter (fun s => decide (s ≠ "__proto__")) :=
    List.mem_filter.2 ⟨hf, by simpa using hproto⟩
  have := getKey?_foldl_setKey
    (fun f => onWorkbook env Obj.empty (sheetObject node exclude mc) f) _
    (Obj.empty : ResultMap).own f (Or.inl hmem)
  simpa [onWorkbook, hwb] using this

theorem mem_keys_sheetObject (node : Node) (exclude : Option (String → Bool))
    (mc : List String) (wb : Workbook) (s : String) :
    s ∈ keys (sheetObject node exclude mc wb).own ↔
      s ∈ wb.SheetNames ∧ passesFilters node exclude wb s = true ∧ s ≠ "__proto__" := by
  unfold sheetObject
  rw [own_foldl_assign (fun s => sheetData node mc wb s), mem_keys_foldl_setKey]
  simp only [keys, Obj.empty, List.map_nil, List.not_mem_nil, false_or, List.mem_filter,
    decide_eq_true_eq, ne_eq]
  tauto

theorem getKey?_sheetObject (node : Node) (exclude : Option (String → Bool))
    (mc : List String) (wb : Workbook) (s : String)
    (hs : s ∈ keys (sheetObject node exclude mc wb).own) :
    getKey? s (sheetObject node exclude mc wb).own = some (sheetData node mc wb s) := by
  have hmem := (mem_keys_sheetObject node exclude mc wb s).1 hs
  unfold sheetObject
  rw [own_foldl_assign (fun s => sheetData node mc wb s)]
  apply getKey?_foldl_setKey (fun s => sheetData node mc wb s)
  left
  rw [List.mem_filter, List.mem_filter]
  exact ⟨⟨hmem.1, hmem.2.1⟩, by simpa using hmem.2.2⟩

/-! ### Aggregation: sheet filtering and counters -/

theorem passesFilters_iff (env : Env) (node : Node) (exclude : Option (String → Bool))
    (hex : compileExclude env node = .ok exclude) (wb : Workbook) (s : String) :
    passesFilters node exclude wb s = true ↔
      (isHidden wb s = false ∨ node.includeHidden = true) ∧
      (node.excludeRegex = "" ∨
        ∃ re, env.regExp node.excludeRegex = .ok re ∧ re s = false) := by
  unfold compileExclude at hex
  unfold passesFilters
  by_cases hempty : node.excludeRegex = ""
  · rw [if_pos hempty] at hex
    cases hex
    simp [hempty]
  · rw [if_neg hempty] at hex
    cases hre : env.regExp node.excludeRegex with
    | error e =>
      rw [hre] at hex
      cases hex
    | ok re =>
      rw [hre] at hex
      cases hex
      simp [hempty]

theorem count_filter_nodup (p : String → Bool) (l : List String) (hl : l.Nodup) (s : String)
    (hs : s ∈ l) : (l.filter p).count s = if p s then 1 else 0 := by
  by_cases hp : p s = true
  · rw [if_pos hp]
    exact List.count_eq_one_of_mem (hl.filter p) (List.mem_filter.2 ⟨hs, hp⟩)
  · rw [if_neg hp]
    exact List.count_eq_zero_of_not_mem (fun hm => hp (List.mem_filter.1 hm).2)

theorem length_filter_eq_sum (p : String → Bool) (l : List String) :
    (l.filter p).length = (l.map (fun s => if p s then 1 else 0)).sum := by
  induction l with
  | nil => rfl
  | cons s l ih =>
    by_cases hp : p s = true
    · simp [List.filter_cons_of_pos, hp, ih]; omega
    · simp [List.filter_cons_of_neg, hp, ih]

theorem sum_map_filter (p : String → Bool) (g : String → Nat) (l : List String) :
    ((l.filter p).map g).sum = (l.map (fun s => if p s then g s else 0)).sum := by
  induction l with
  | nil => rfl
  | cons s l ih =>
    by_cases hp : p s = true
    · simp [List.filter_cons_of_pos, hp, ih]
    · simp [List.filter_cons_of_neg, hp, ih]

/-- Claim C6, as amended. Sheet filtering of a successful aggregation, the
exclude test being the one compiled from the node's pattern.  A sheet passes
the filters exactly when (it is not hidden or hidden sheets are included) and
(no exclude pattern is set or the pattern does not match its name).  For
every file `f` of the list other than `__proto__`, `data[f]` exists, and a
sheet name of its workbook other than `__proto__` is a key of `data[f]`
exactly when it passes the filters; every key of `data[f]` is a sheet name of
the workbook that passes and holds the normalised rows of that sheet, so a
sheet that fails a test is absent.  `sheetCount` is the number of listings of
a sheet that pass, `rowCount` the number of their rows: a listing that fails
a test adds nothing, and in a workbook whose sheet names are pairwise distinct
every sheet name is counted once when it passes and not at all otherwise.
With the pattern `^Temp` the sheet `TempCalc` is absent from `data[file]`;
with hidden sheets not included, the hidden sheet of one of two files is not
counted and adds no rows. -/
theorem aggregate_sheet_filter (env : Env) (node : Node) (exclude : Option (String → Bool))
    (mc : List String) (files attempted : List String) (agg : Aggregated)
    (hex : compileExclude env node = .ok exclude)
    (h : aggregate env node exclude mc files = (.ok agg, attempted)) :
    (∀ wb s, passesFilters node exclude wb s = true ↔
      (isHidden wb s = false ∨ node.includeHidden = true) ∧
      (node.excludeRegex = "" ∨
        ∃ re, env.regExp node.excludeRegex = .ok re ∧ re s = false)) ∧
    (∀ f ∈ files, f ≠ "__proto__" → ∀ wb, env.readFile f = .ok wb →
      ∃ sh, getKey? f agg.data.own = some sh ∧
        (∀ s ∈ wb.SheetNames, s ≠ "__proto__" →
          (s ∈ keys sh.own ↔ passesFilters node exclude wb s = true)) ∧
        (∀ s ∈ keys sh.own, s ∈ wb.SheetNames ∧ passesFilters node exclude wb s = true ∧
          getKey? s sh.own = some (normalize node.fillMerged mc (wb.rowsOf s)))) ∧
    agg.summary.sheetCount = (files.map (onWorkbook env 0 (fun wb =>
      (wb.SheetNames.filter (passesFilters node exclude wb)).length))).sum ∧
    agg.summary.rowCount = (files.map (onWorkbook env 0 (fun wb =>
      ((wb.SheetNames.filter (passesFilters node exclude wb)).map (fun s =>
        (normalize node.fillMerged mc (wb.rowsOf s)).length)).sum))).sum ∧
    (∀ wb : Workbook, wb.SheetNames.Nodup → ∀ s ∈ wb.SheetNames,
      (wb.SheetNames.filter (passesFilters node exclude wb)).count s =
        if passesFilters node exclude wb s then 1 else 0) ∧
    (compileExclude bookEnv tempNode).map (fun e => e.map (fun re => re "TempCalc")) =
      .ok (some true) ∧
    observe "book.xlsx" (aggregate bookEnv tempNode (some tempPattern) [] ["book.xlsx"]) =
      .ok (["Data"], { fileCount := 1, sheetCount := 1, rowCount := 1 }, 1) ∧
    observe "a.xlsx" (aggregate bookEnv dirNode none [] ["a.xlsx", "b.xlsx"]) =
      .ok (["S1"], { fileCount := 2, sheetCount := 2, rowCount := 2 }, 2) := by
  obtain ⟨_, _, acc, hacc, hagg⟩ := aggregate_ok _ _ _ _ _ _ _ h
  obtain ⟨h1, _, h3, h4⟩ := readAll_closed _ _ _ _ _ _ _ hacc
  subst hagg
  simp only [buildAggregated]
  refine ⟨passesFilters_iff env node exclude hex, ?_, ?_, ?_, ?_, rfl, rfl, rfl⟩
  · intro f hf hproto wb hwb
    refine ⟨sheetObject node exclude mc wb, ?_, ?_, ?_⟩
    · rw [h1]
      exact getKey?_data env node exclude mc files f hf hproto wb hwb
    · intro s hs hsp
      rw [mem_keys_sheetObject]
      exact ⟨fun hm => hm.2.1, fun hp => ⟨hs, hp, hsp⟩⟩
    · intro s hs
      have hm := (mem_keys_sheetObject node exclude mc wb s).1 hs
      exact ⟨hm.1, hm.2.1, getKey?_sheetObject node exclude mc wb s hs⟩
  · rw [h3, Nat.zero_add]
    congr 1
    apply List.map_congr_left
    intro f _
    unfold onWorkbook includedSheets
    cases env.readFile f with
    | error e => rfl
    | ok wb => exact (length_filter_eq_sum _ _).symm
  · rw [h4, Nat.zero_add]
    congr 1
    apply List.map_congr_left
    intro f _
    unfold onWorkbook includedRows
    cases env.readFile f with
    | error e => rfl
    | ok wb => exact (sum_map_filter _ (fun s => (sheetData node mc wb s).length) _).symm
  · intro wb hwb s hs
    exact count_filter_nodup _ _ hwb s hs

/-- Witness for C6: the aggregation of `book.xlsx` under the pattern `^Temp`
succeeds and counts one sheet. -/
theorem aggregate_sheet_filter_witness : bookPayload.summary.sheetCount = 1 :=
  (aggregate_sheet_filter bookEnv tempNode (some tempPattern) [] ["book.xlsx"] ["book.xlsx"]
    bookPayload rfl rfl).2.2.1.trans (by rfl)

/-- Counterexample to C6 as stated.  The workbook `dup.xlsx` lists the sheet
name `S` twice: both listings pass, `data["dup.xlsx"]` has the one key `S`
and `sheetCount` is `2`, so the sheet name is counted twice.  The workbook
`proto.xlsx` has the sheets `Data` and `__proto__`: both pass and both are
counted, and `data["proto.xlsx"]` has the one key `Data`. -/
theorem aggregate_sheet_filter_counts_listings :
    passesFilters dirNode none
      { SheetNames := ["S", "S"], rowsOf := fun _ => oneRow, sheetEntries := none } "S" = true ∧
    (aggregate bookEnv dirNode none [] ["dup.xlsx"]).1.map
      (fun agg => (keys ((getKey? "dup.xlsx" agg.data.own).getD Obj.empty).own,
        agg.summary.sheetCount)) = .ok (["S"], 2) ∧
    passesFilters dirNode none
      { SheetNames := ["Data", "__proto__"], rowsOf := fun _ => oneRow, sheetEntries := none }
      "__proto__" = true ∧
    (aggregate bookEnv dirNode none [] ["proto.xlsx"]).1.map
      (fun agg => (keys ((getKey? "proto.xlsx" agg.data.own).getD Obj.empty).own,
        agg.summary.sheetCount)) = .ok (["Data"], 2) := by
  refine ⟨rfl, rfl, rfl, rfl⟩

/-! ### Aggregation: the row counter -/

theorem sum_keys_foldl_setKey {α : Type} (d : String → α) (l : List String) (hl : l.Nodup)
    (φ : Option α → Nat) :
    ((keys (l.foldl (fun m s => setKey s (d s) m) [])).map
        (fun s => φ (getKey? s (l.foldl (fun m s => setKey s (d s) m) [])))).sum =
      (l.map (fun s => φ (some (d s)))).sum := by
  have hkeys : keys (l.foldl (fun m s => setKey s (d s) m) []) = l := by
    rw [foldl_setKey_nodup d l [] hl (by simp [keys])]
    simp only [keys, List.nil_append, List.map_map]
    exact List.map_id'' (fun _ => rfl) l
  rw [hkeys]
  congr 1
  apply List.map_congr_left
  intro s hs
  rw [getKey?_foldl_setKey d l [] s (Or.inl hs)]

theorem sheetRows_sheetObject (node : Node) (exclude : Option (String → Bool))
    (mc : List String) (wb : Workbook) (hwb : wb.SheetNames.Nodup)
    (hproto : "__proto__" ∉ wb.SheetNames) :
    sheetRows (some (sheetObject node exclude mc wb)) = includedRows node exclude mc wb := by
  have hown : (sheetObject node exclude mc wb).own =
      (wb.SheetNames.filter (passesFilters node exclude wb)).foldl
        (fun m s => setKey s (sheetData node mc wb s) m) [] := by
    unfold sheetObject
    rw [own_foldl_assign (fun s => sheetData node mc wb s), filter_ne_proto]
    · rfl
    · exact fun hm => hproto (List.mem_filter.1 hm).1
  unfold sheetRows includedRows
  simp only [Option.getD_some]
  rw [hown]
  have := sum_keys_foldl_setKey (fun s => sheetData node mc wb s)
    (wb.SheetNames.filter (passesFilters node exclude wb)) (hwb.filter _)
    (fun o => (o.getD []).length)
  simp only [Option.getD_some] at this
  rw [this, sum_map_filter]

/-- Claim C3, as amended. Whenever aggregation succeeds for a list of pairwise
distinct files, none of them the path `__proto__`, whose workbooks list
pairwise distinct sheet names, none of them `__proto__`, `summary.rowCount`
equals the sum, over every file key `f` of `data` and every sheet key `s` of
`data[f]`, of the number of row records in `data[f][s]`. -/
theorem aggregate_rowCount (env : Env) (node : Node) (exclude : Option (String → Bool))
    (mc : List String) (files attempted : List String) (agg : Aggregated)
    (hfiles : files.Nodup) (hpath : "__proto__" ∉ files)
    (hsheets : ∀ f ∈ files, ∀ wb, env.readFile f = .ok wb →
      wb.SheetNames.Nodup ∧ "__proto__" ∉ wb.SheetNames)
    (h : aggregate env node exclude mc files = (.ok agg, attempted)) :
    agg.summary.rowCount = totalRows agg.data := by
  obtain ⟨_, _, acc, hacc, hagg⟩ := aggregate_ok _ _ _ _ _ _ _ h
  obtain ⟨h1, _, _, h4⟩ := readAll_closed _ _ _ _ _ _ _ hacc
  subst hagg
  simp only [buildAggregated]
  have hown : acc.resultMap.own = files.foldl
      (fun m f => setKey f (onWorkbook env Obj.empty (sheetObject node exclude mc) f) m) [] := by
    rw [h1, own_foldl_assign
      (fun f => onWorkbook env Obj.empty (sheetObject node exclude mc) f),
      filter_ne_proto files hpath]
    rfl
  rw [h4, Nat.zero_add]
  unfold totalRows
  rw [hown, sum_keys_foldl_setKey
    (fun f => onWorkbook env Obj.empty (sheetObject node exclude mc) f) files hfiles sheetRows]
  congr 1
  apply List.map_congr_left
  intro f hf
  unfold onWorkbook
  cases hr : env.readFile f with
  | error e => rfl
  | ok wb =>
    obtain ⟨hn, hp⟩ := hsheets f hf wb hr
    exact (sheetRows_sheetObject node exclude mc wb hn hp).symm

/-- Witness for C3: the aggregation of `book.xlsx`, whose two sheet names are
distinct and other than `__proto__`. -/
theorem aggregate_rowCount_witness : bookPayload.summary.rowCount = totalRows bookPayload.data :=
  aggregate_rowCount bookEnv tempNode (some tempPattern) [] ["book.xlsx"] ["book.xlsx"]
    bookPayload (by decide) (by decide)
    (by
      intro f hf wb hwb
      rw [List.mem_singleton] at hf
      subst hf
      cases hwb
      exact ⟨by decide, by decide⟩)
    rfl

/-- Counterexample to C3 as stated.  The workbook `dup.xlsx` lists the sheet
name `S` twice, one row each time: aggregation succeeds with `rowCount = 2`
while `data["dup.xlsx"]` has the single key `S` holding one row, so the sum
over the keys of `data` is `1`.  The workbook `proto.xlsx` has the sheets
`Data` and `__proto__`, one row each: `rowCount = 2` while `data["proto.xlsx"]`
has the single key `Data`, so the sum is again `1`. -/
theorem aggregate_rowCount_duplicate_sheet :
    observe "dup.xlsx" (aggregate bookEnv dirNode none [] ["dup.xlsx"]) =
      .ok (["S"], { fileCount := 1, sheetCount := 2, rowCount := 2 }, 1) ∧
    observe "proto.xlsx" (aggregate bookEnv dirNode none [] ["proto.xlsx"]) =
      .ok (["Data"], { fileCount := 1, sheetCount := 2, rowCount := 2 }, 1) := by
  refine ⟨rfl, rfl⟩

end XlsxReader
